import Mathlib

/-!
# picoid: buffered generation of version-4 UUIDs

A shallow embedding of `src/cuuid/uuid.c` (the branch compiled when `_WIN32`
is not defined) and the properties of it that the specification states.

* Bytes are natural numbers; the two `uint8_t` stores that follow an
  arithmetic expression carry an explicit `% 256`.
* `buffer_pos` is a `size_t`; its arithmetic is taken modulo `SIZE_MOD = 2 ^ 64`.
* The operating system is an oracle `src : Nat → ReadResult`: `src k` is what
  the `k`-th call of `read(urandom_fd, random_buffer, BUFFER_SIZE)` does (the
  value it returns and the bytes it stores). The state counts the calls of
  `read` made so far in the field `reads`. What `open` returns is an argument
  of `init_rng`.
* `exit(1)` and an out-of-bounds `memcpy` are outcomes of their own, so a
  function of the program returns an `Outcome`.
* Sequential runs use the functions as they stand; concurrent callers are
  modelled by a step function on threads (`step`, `run`) built from the same
  pieces.
-/

namespace Picoid

/-! ## Constants and state -/

/-- Size of a UUID in bytes: `#define UUID_SIZE 16`. -/
def UUID_SIZE : Nat := 16

/-- Size of the buffer in bytes: `#define BUFFER_SIZE 8192`. -/
def BUFFER_SIZE : Nat := 8192

/-- Number of values of a `size_t` (64-bit). -/
def SIZE_MOD : Nat := 2 ^ 64

/-- What one call `read(urandom_fd, random_buffer, BUFFER_SIZE)` does: it fails
(returns `-1`), or it returns `count` after storing the bytes `data 0`, ...,
`data (count - 1)` at the start of the destination. -/
inductive ReadResult where
  | error
  | delivered (count : Nat) (data : Nat → Nat)

/-- The value `read` returns (`ssize_t bytes_read`). -/
def ReadResult.bytes_read : ReadResult → Int
  | .error => -1
  | .delivered count _ => (count : Int)

/-- The destination buffer after `read`: the delivered bytes overwrite its
start, the rest keeps its content. -/
def ReadResult.store : ReadResult → (Nat → Nat) → Nat → Nat
  | .error, buf => buf
  | .delivered count data, buf =>
      fun i => if i < count ∧ i < BUFFER_SIZE then data i else buf i

/-- The static variables of `uuid.c`, and the count of `read` calls made. -/
structure State where
  /-- The variable `static int urandom_fd`. -/
  urandom_fd : Int
  /-- The array `static unsigned char random_buffer[BUFFER_SIZE]`, by index. -/
  random_buffer : Nat → Nat
  /-- The cursor `static _Atomic size_t buffer_pos`. -/
  buffer_pos : Nat
  /-- How many times `read` has been called. -/
  reads : Nat

/-- The state at program load: `urandom_fd = -1`, a zeroed static buffer and
`buffer_pos = BUFFER_SIZE`. -/
def initial : State :=
  { urandom_fd := -1, random_buffer := fun _ => 0, buffer_pos := BUFFER_SIZE, reads := 0 }

/-- How a function of the program ends: it returns, the process ends in
`exit(code)` (with the state at that moment), or `memcpy` reads outside
`random_buffer`. -/
inductive Outcome (α : Type) where
  | ret (a : α)
  | exited (code : Nat) (s : State)
  | fault

/-- Sequencing of two program fragments. -/
def Outcome.bind {α β : Type} (x : Outcome α) (f : α → Outcome β) : Outcome β :=
  match x with
  | .ret a => f a
  | .exited c s => .exited c s
  | .fault => .fault

/-! ## The functions of `uuid.c` -/

/-- Function `fill_buffer` (lines 22-35): with a descriptor, read `BUFFER_SIZE`
bytes and `exit(1)` unless exactly that many arrived; then, descriptor or not,
reset the cursor. -/
def fill_buffer (src : Nat → ReadResult) (s : State) : Outcome State :=
  if s.urandom_fd ≠ -1 then
    let r := src s.reads
    let s1 : State := { s with random_buffer := r.store s.random_buffer, reads := s.reads + 1 }
    if r.bytes_read ≠ (BUFFER_SIZE : Int) then
      .exited 1 s1
    else
      .ret { s1 with buffer_pos := 0 }
  else
    .ret { s with buffer_pos := 0 }

/-- Function `init_rng` (lines 37-44): `open_result` is what the call of `open`
on `/dev/urandom` returns (`-1` on failure); it is stored unchecked and
`fill_buffer` runs. -/
def init_rng (src : Nat → ReadResult) (open_result : Int) (s : State) : Outcome State :=
  fill_buffer src { s with urandom_fd := open_result }

/-- The call `atomic_fetch_add(&buffer_pos, n)`: the old value, and the state
with the cursor advanced in `size_t` arithmetic. -/
def fetch_add (s : State) (n : Nat) : Nat × State :=
  (s.buffer_pos, { s with buffer_pos := (s.buffer_pos + n) % SIZE_MOD })

/-- Lines 55-61 of `c_uuid4`: reserve an offset, refilling once when the slice
would end past the buffer. Returns `current_pos` as it is used by `memcpy`. -/
def reserve (src : Nat → ReadResult) (s : State) : Outcome (Nat × State) :=
  let (current_pos, s1) := fetch_add s UUID_SIZE
  if (current_pos + UUID_SIZE) % SIZE_MOD > BUFFER_SIZE then
    (fill_buffer src s1).bind fun s2 => .ret (fetch_add s2 UUID_SIZE)
  else
    .ret (current_pos, s1)

/-- The bytes `memcpy(dst, buf + off, n)` copies. -/
def memcpy (buf : Nat → Nat) (off n : Nat) : List Nat :=
  (List.range n).map fun i => buf (off + i)

/-- Lines 67-68 of `c_uuid4`: the version and variant bits.
`uuid[6] = (uuid[6] & 0x0F) | 0x40; uuid[8] = (uuid[8] & 0x3F) | 0x80;` -/
def set_version_variant (uuid : List Nat) : List Nat :=
  let uuid := uuid.set 6 (((uuid.getD 6 0 &&& 0x0F) ||| 0x40) % 256)
  uuid.set 8 (((uuid.getD 8 0 &&& 0x3F) ||| 0x80) % 256)

/-- Function `c_uuid4` (lines 54-69): reserve an offset, copy 16 bytes from it,
set the version and variant bits. The copy faults when it would leave the
buffer. -/
def c_uuid4 (src : Nat → ReadResult) (s : State) : Outcome (List Nat × State) :=
  (reserve src s).bind fun (current_pos, s1) =>
    if current_pos + UUID_SIZE ≤ BUFFER_SIZE then
      .ret (set_version_variant (memcpy s1.random_buffer current_pos UUID_SIZE), s1)
    else
      .fault

/-- The state after `n` successive calls of `c_uuid4` (the UUIDs are dropped). -/
def after_calls (src : Nat → ReadResult) (s : State) : Nat → Outcome State
  | 0 => .ret s
  | n + 1 => (after_calls src s n).bind fun s1 => (c_uuid4 src s1).bind fun r => .ret r.2

/-- The UUID returned by call number `n` (counting from 0) of a sequence of
successive calls of `c_uuid4` that starts in `s`. -/
def nth_call (src : Nat → ReadResult) (s : State) (n : Nat) : Outcome (List Nat) :=
  (after_calls src s n).bind fun s1 => (c_uuid4 src s1).bind fun r => .ret r.1

/-- Byte `i` of what a `read` delivered (0 where nothing was delivered). -/
def ReadResult.payload : ReadResult → Nat → Nat
  | .error, _ => 0
  | .delivered count data, i => if i < count then data i else 0

/-- Every `read` of the source delivers exactly `BUFFER_SIZE` bytes. -/
def Delivers (src : Nat → ReadResult) : Prop :=
  ∀ k, (src k).bytes_read = (BUFFER_SIZE : Int)

/-- Byte `j` of the concatenation of the successive reads of a source. -/
def stream (src : Nat → ReadResult) (j : Nat) : Nat :=
  (src (j / BUFFER_SIZE)).payload (j % BUFFER_SIZE)

/-- The all-zero payload with the version and variant bits set:
`00000000-0000-4000-8000-000000000000`. -/
def zero_uuid : List Nat := [0, 0, 0, 0, 0, 0, 0x40, 0, 0x80, 0, 0, 0, 0, 0, 0, 0]

/-- What holds of the state before call number `n` (counting from 0) of a
sequential run after a successful `init_rng`: `q` refills were made since the
initial fill, `r` slices of the current fill are consumed, and the buffer holds
read number `q`. -/
def SeqInv (src : Nat → ReadResult) (n : Nat) (s : State) : Prop :=
  ∃ q r, n = 512 * q + r ∧ r ≤ 512 ∧ s.buffer_pos = 16 * r ∧ s.reads = q + 1 ∧
    s.urandom_fd ≠ -1 ∧ ∀ i, i < BUFFER_SIZE → s.random_buffer i = (src q).payload i

/-- The states the sequential program can be in between operations: the
load-time state, and what `init_rng`, `fill_buffer` and `c_uuid4` return to. -/
inductive Reachable (src : Nat → ReadResult) : State → Prop where
  | start : Reachable src initial
  | init (s s1 : State) (fd : Int) :
      Reachable src s → init_rng src fd s = .ret s1 → Reachable src s1
  | refill (s s1 : State) :
      Reachable src s → fill_buffer src s = .ret s1 → Reachable src s1
  | call (s s1 : State) (u : List Nat) :
      Reachable src s → c_uuid4 src s = .ret (u, s1) → Reachable src s1

/-- A sample source: read number `k` delivers `BUFFER_SIZE` bytes of value `k`. -/
def counting_source : Nat → ReadResult :=
  fun k => .delivered BUFFER_SIZE (fun _ => k)

/-! ## Concurrent callers

Threads run `c_uuid4` on the shared statics. A thread takes one of four steps
at a time: the first `atomic_fetch_add` with the test of line 58, `fill_buffer`
(read and cursor reset together), the second `atomic_fetch_add`, and `memcpy`
with the two byte stores on the caller's own array. Steps of different threads
interleave in any order. -/

/-- Where a thread stands in `c_uuid4`. -/
inductive Pc where
  /-- Before line 55 (not in a call, or entering one). -/
  | idle
  /-- Before line 59: the test of line 58 found the buffer exhausted. -/
  | refill
  /-- Before line 60: `fill_buffer` has returned. -/
  | second_add
  /-- Before line 64, with the local `current_pos`. -/
  | copy (current_pos : Nat)

/-- One completed call: the calling thread, the number of reads made when the
bytes were copied (which names the fill cycle the buffer content belongs to),
the offset copied from, the 16 bytes copied and the UUID returned. -/
structure Allocation where
  thread : Nat
  fill : Nat
  offset : Nat
  raw : List Nat
  uuid : List Nat

/-- Two allocations took overlapping byte ranges of the same fill cycle. -/
def Allocation.overlaps (a b : Allocation) : Prop :=
  a.fill = b.fill ∧ a.offset < b.offset + UUID_SIZE ∧ b.offset < a.offset + UUID_SIZE

/-- The shared statics, the position of every thread, and the calls completed
so far (latest first). -/
structure System where
  shared : State
  pcs : Nat → Pc
  log : List Allocation

/-- All threads idle, nothing allocated yet. -/
def System.start (s : State) : System :=
  { shared := s, pcs := fun _ => .idle, log := [] }

/-- The positions with thread `t` moved to `pc`. -/
def set_pc (pcs : Nat → Pc) (t : Nat) (pc : Pc) : Nat → Pc :=
  fun i => if i = t then pc else pcs i

/-- One step of thread `t`. -/
def step (src : Nat → ReadResult) (σ : System) (t : Nat) : Outcome System :=
  match σ.pcs t with
  | .idle =>
      let (current_pos, s1) := fetch_add σ.shared UUID_SIZE
      if (current_pos + UUID_SIZE) % SIZE_MOD > BUFFER_SIZE then
        .ret { σ with shared := s1, pcs := set_pc σ.pcs t .refill }
      else
        .ret { σ with shared := s1, pcs := set_pc σ.pcs t (.copy current_pos) }
  | .refill =>
      (fill_buffer src σ.shared).bind fun s1 =>
        .ret { σ with shared := s1, pcs := set_pc σ.pcs t .second_add }
  | .second_add =>
      let (current_pos, s1) := fetch_add σ.shared UUID_SIZE
      .ret { σ with shared := s1, pcs := set_pc σ.pcs t (.copy current_pos) }
  | .copy current_pos =>
      if current_pos + UUID_SIZE ≤ BUFFER_SIZE then
        let raw := memcpy σ.shared.random_buffer current_pos UUID_SIZE
        .ret { σ with
          pcs := set_pc σ.pcs t .idle
          log := ⟨t, σ.shared.reads, current_pos, raw, set_version_variant raw⟩ :: σ.log }
      else
        .fault

/-- Run the threads in the order a schedule names them. -/
def run (src : Nat → ReadResult) (σ : System) : List Nat → Outcome System
  | [] => .ret σ
  | t :: ts => (step src σ t).bind fun σ1 => run src σ1 ts

/-- A schedule of two threads: thread 0 makes 512 calls on its own (two steps
each), which consumes the initial fill; then threads 0 and 1 both take the first
`atomic_fetch_add` and find the buffer exhausted, thread 0 refills and reserves
again, thread 1 refills and reserves again, and both copy. -/
def overlap_schedule : List Nat :=
  List.replicate 1024 0 ++ [0, 1, 0, 0, 1, 1, 0, 1]

/-- Two 16-byte payloads agree on every bit that lines 67-68 do not overwrite:
on the 14 bytes other than bytes 6 and 8, on the low nibble of byte 6 and on the
low six bits of byte 8. -/
def same_kept_bits (u v : List Nat) : Prop :=
  (∀ i, i < 16 → i ≠ 6 → i ≠ 8 → u.getD i 0 = v.getD i 0) ∧
    u.getD 6 0 &&& 0x0F = v.getD 6 0 &&& 0x0F ∧ u.getD 8 0 &&& 0x3F = v.getD 8 0 &&& 0x3F

/-- The 16-byte chunk number `n` of the stream a source delivers. -/
def chunk (src : Nat → ReadResult) (n : Nat) : List Nat :=
  memcpy (stream src) (16 * n) UUID_SIZE

/-- A sample source whose chunks carry their own index (modulo 256) in byte 0. -/
def serial_source : Nat → ReadResult :=
  fun k => .delivered BUFFER_SIZE (fun i => if i % 16 = 0 then (512 * k + i / 16) % 256 else 0)

/-- A schedule of two threads: thread 0 makes 512 calls on its own, enters a
513th, finds the buffer exhausted and refills; thread 1 then makes 512 calls,
which consumes the new fill; thread 0 resumes with its second
`atomic_fetch_add`. Its `memcpy` is the step that follows. -/
def stale_offset_schedule : List Nat :=
  List.replicate (2 * 512) 0 ++ ([0, 0] ++ (List.replicate (2 * 512) 1 ++ [0]))

/-! ## Bytes 6 and 8 -/

/-- The byte stored by `uuid[6] = (uuid[6] & 0x0F) | 0x40`. -/
def version_byte (b : Nat) : Nat := ((b &&& 0x0F) ||| 0x40) % 256

/-- The byte stored by `uuid[8] = (uuid[8] & 0x3F) | 0x80`. -/
def variant_byte (b : Nat) : Nat := ((b &&& 0x3F) ||| 0x80) % 256

theorem and_15_eq_mod (b : Nat) : b &&& 0x0F = b % 16 :=
  Nat.and_pow_two_sub_one_eq_mod b 4

theorem and_63_eq_mod (b : Nat) : b &&& 0x3F = b % 64 :=
  Nat.and_pow_two_sub_one_eq_mod b 6

theorem version_byte_high (b : Nat) : version_byte b &&& 0xF0 = 0x40 := by
  unfold version_byte
  rw [and_15_eq_mod b]
  have h : b % 16 < 16 := Nat.mod_lt _ (by norm_num)
  generalize b % 16 = r at h
  interval_cases r <;> rfl

theorem version_byte_low (b : Nat) : version_byte b &&& 0x0F = b &&& 0x0F := by
  unfold version_byte
  rw [and_15_eq_mod b]
  have h : b % 16 < 16 := Nat.mod_lt _ (by norm_num)
  generalize b % 16 = r at h
  interval_cases r <;> rfl

theorem variant_byte_high (b : Nat) : variant_byte b &&& 0xC0 = 0x80 := by
  unfold variant_byte
  rw [and_63_eq_mod b]
  have h : b % 64 < 64 := Nat.mod_lt _ (by norm_num)
  generalize b % 64 = r at h
  interval_cases r <;> rfl

theorem variant_byte_low (b : Nat) : variant_byte b &&& 0x3F = b &&& 0x3F := by
  unfold variant_byte
  rw [and_63_eq_mod b]
  have h : b % 64 < 64 := Nat.mod_lt _ (by norm_num)
  generalize b % 64 = r at h
  interval_cases r <;> rfl

theorem version_byte_idem (b : Nat) : version_byte (version_byte b) = version_byte b := by
  have h := version_byte_low b
  unfold version_byte at h ⊢
  rw [h]

theorem variant_byte_idem (b : Nat) : variant_byte (variant_byte b) = variant_byte b := by
  have h := variant_byte_low b
  unfold variant_byte at h ⊢
  rw [h]

/-- On at least nine bytes the transform rewrites bytes 6 and 8 and nothing else. -/
theorem set_version_variant_cons (a0 a1 a2 a3 a4 a5 a6 a7 a8 : Nat) (t : List Nat) :
    set_version_variant (a0 :: a1 :: a2 :: a3 :: a4 :: a5 :: a6 :: a7 :: a8 :: t)
      = a0 :: a1 :: a2 :: a3 :: a4 :: a5 :: version_byte a6 :: a7 :: variant_byte a8 :: t :=
  rfl

/-- The 16 bytes `c_uuid4` hands out when it copies from offset `p` of `buf`. -/
theorem uuid_of_buffer (buf : Nat → Nat) (p : Nat) :
    set_version_variant (memcpy buf p UUID_SIZE)
      = [buf (p + 0), buf (p + 1), buf (p + 2), buf (p + 3), buf (p + 4), buf (p + 5),
         version_byte (buf (p + 6)), buf (p + 7), variant_byte (buf (p + 8)), buf (p + 9),
         buf (p + 10), buf (p + 11), buf (p + 12), buf (p + 13), buf (p + 14), buf (p + 15)] :=
  rfl

/-- On seven or eight bytes only byte 6 is there to rewrite. -/
theorem set_version_variant_seven (a0 a1 a2 a3 a4 a5 a6 : Nat) :
    set_version_variant [a0, a1, a2, a3, a4, a5, a6]
      = [a0, a1, a2, a3, a4, a5, version_byte a6] :=
  rfl

theorem set_version_variant_eight (a0 a1 a2 a3 a4 a5 a6 a7 : Nat) :
    set_version_variant [a0, a1, a2, a3, a4, a5, a6, a7]
      = [a0, a1, a2, a3, a4, a5, version_byte a6, a7] :=
  rfl

/-! ## Shape of a call of `c_uuid4` -/

/-- A call of `c_uuid4` returns exactly when the reservation returns an offset
whose slice lies in the buffer; the UUID is then the transform of that slice. -/
theorem c_uuid4_ret_iff (src : Nat → ReadResult) (s s1 : State) (u : List Nat) :
    c_uuid4 src s = .ret (u, s1) ↔
      ∃ p, reserve src s = .ret (p, s1) ∧ p + UUID_SIZE ≤ BUFFER_SIZE ∧
        u = set_version_variant (memcpy s1.random_buffer p UUID_SIZE) := by
  unfold c_uuid4
  cases h : reserve src s with
  | ret a =>
    obtain ⟨p, s2⟩ := a
    simp only [Outcome.bind]
    by_cases hp : p + UUID_SIZE ≤ BUFFER_SIZE
    · simp only [hp, if_true]
      constructor
      · intro e
        injection e with e
        injection e with e1 e2
        subst e2
        exact ⟨p, rfl, hp, e1.symm⟩
      · rintro ⟨q, e, _, hu⟩
        injection e with e
        injection e with e1 e2
        subst e1 e2
        rw [hu]
    · simp only [hp, if_false]
      constructor
      · intro e
        cases e
      · rintro ⟨q, e, hq, _⟩
        injection e with e
        injection e with e1 e2
        subst e1
        exact absurd hq hp
  | exited c e =>
    simp only [Outcome.bind]
    constructor
    · intro e
      cases e
    · rintro ⟨q, e, _, _⟩
      cases e
  | fault =>
    simp only [Outcome.bind]
    constructor
    · intro e
      cases e
    · rintro ⟨q, e, _, _⟩
      cases e

/-! ## Refill and the two paths of `c_uuid4` -/

theorem size_mod_eq : SIZE_MOD = 18446744073709551616 := by
  norm_num [SIZE_MOD]

/-- A read of exactly `BUFFER_SIZE` bytes overwrites the whole buffer. -/
theorem store_full (r : ReadResult) (hr : r.bytes_read = (BUFFER_SIZE : Int)) (buf : Nat → Nat)
    (i : Nat) (hi : i < BUFFER_SIZE) : r.store buf i = r.payload i := by
  cases r with
  | error =>
    simp only [ReadResult.bytes_read, BUFFER_SIZE] at hr
    omega
  | delivered count data =>
    have hl : count = BUFFER_SIZE := by
      simp only [ReadResult.bytes_read] at hr
      exact_mod_cast hr
    simp only [ReadResult.store, ReadResult.payload, hl, hi, and_self, if_true]

/-- With a descriptor and a full read, `fill_buffer` stores the read and resets the cursor. -/
theorem fill_buffer_full (src : Nat → ReadResult) (s : State) (hfd : s.urandom_fd ≠ -1)
    (hr : (src s.reads).bytes_read = (BUFFER_SIZE : Int)) :
    fill_buffer src s
      = .ret ⟨s.urandom_fd, (src s.reads).store s.random_buffer, 0, s.reads + 1⟩ := by
  simp [fill_buffer, hfd, hr]

/-- With a descriptor and any other read result, `fill_buffer` ends in `exit(1)`
before it touches the cursor. -/
theorem fill_buffer_short (src : Nat → ReadResult) (s : State) (hfd : s.urandom_fd ≠ -1)
    (hr : (src s.reads).bytes_read ≠ (BUFFER_SIZE : Int)) :
    fill_buffer src s
      = .exited 1 ⟨s.urandom_fd, (src s.reads).store s.random_buffer, s.buffer_pos,
          s.reads + 1⟩ := by
  simp [fill_buffer, hfd, hr]

/-- Without a descriptor, `fill_buffer` reads nothing and still resets the cursor. -/
theorem fill_buffer_no_fd (src : Nat → ReadResult) (s : State) (hfd : s.urandom_fd = -1) :
    fill_buffer src s = .ret ⟨s.urandom_fd, s.random_buffer, 0, s.reads⟩ := by
  simp [fill_buffer, hfd]

/-- Whenever `fill_buffer` returns, the cursor is 0. -/
theorem fill_buffer_ret_pos (src : Nat → ReadResult) (s s1 : State)
    (h : fill_buffer src s = .ret s1) : s1.buffer_pos = 0 := by
  by_cases hfd : s.urandom_fd = -1
  · rw [fill_buffer_no_fd src s hfd] at h
    injection h with h
    subst h
    rfl
  · by_cases hr : (src s.reads).bytes_read = (BUFFER_SIZE : Int)
    · rw [fill_buffer_full src s hfd hr] at h
      injection h with h
      subst h
      rfl
    · rw [fill_buffer_short src s hfd hr] at h
      cases h

/-- Fast path: the slice fits, nothing but the cursor changes. -/
theorem c_uuid4_fast (src : Nat → ReadResult) (s : State)
    (h : s.buffer_pos + UUID_SIZE ≤ BUFFER_SIZE) :
    c_uuid4 src s
      = .ret (set_version_variant (memcpy s.random_buffer s.buffer_pos UUID_SIZE),
          ⟨s.urandom_fd, s.random_buffer, s.buffer_pos + UUID_SIZE, s.reads⟩) := by
  have hlt : s.buffer_pos + UUID_SIZE < SIZE_MOD := by
    rw [size_mod_eq]
    simp only [UUID_SIZE, BUFFER_SIZE] at h ⊢
    omega
  have hn : ¬ s.buffer_pos + UUID_SIZE > BUFFER_SIZE := by
    omega
  simp only [c_uuid4, reserve, fetch_add, Nat.mod_eq_of_lt hlt, hn, if_false, Outcome.bind, h,
    if_true]

/-- Exhausted path: the slice does not fit, `fill_buffer` runs once and the
slice at offset 0 of the buffer it leaves is handed out. -/
theorem c_uuid4_refill (src : Nat → ReadResult) (s s2 : State)
    (h1 : BUFFER_SIZE < s.buffer_pos + UUID_SIZE) (h2 : s.buffer_pos + UUID_SIZE < SIZE_MOD)
    (hf : fill_buffer src ⟨s.urandom_fd, s.random_buffer, s.buffer_pos + UUID_SIZE, s.reads⟩
      = .ret s2) :
    c_uuid4 src s
      = .ret (set_version_variant (memcpy s2.random_buffer 0 UUID_SIZE),
          ⟨s2.urandom_fd, s2.random_buffer, UUID_SIZE, s2.reads⟩) := by
  have hp := fill_buffer_ret_pos _ _ _ hf
  have hy : s.buffer_pos + UUID_SIZE > BUFFER_SIZE := h1
  have h0 : (0 + UUID_SIZE) % SIZE_MOD = UUID_SIZE := by
    rw [size_mod_eq]
    rfl
  have hle : 0 + UUID_SIZE ≤ BUFFER_SIZE := by decide
  simp only [c_uuid4, reserve, fetch_add, hy, if_true, Nat.mod_eq_of_lt h2, hf, Outcome.bind,
    hp, h0, hle]

/-- Copies of slices that agree byte by byte are equal. -/
theorem memcpy_congr (f g : Nat → Nat) (a b n : Nat) (h : ∀ i, i < n → f (a + i) = g (b + i)) :
    memcpy f a n = memcpy g b n := by
  unfold memcpy
  apply List.map_congr_left
  intro i hi
  exact h i (List.mem_range.mp hi)

/-! ## Sequential runs -/

theorem counting_source_delivers : Delivers counting_source := by
  intro k
  simp only [counting_source, ReadResult.bytes_read]

/-- As long as the slices fit, `n` calls only advance the cursor by `16 * n`. -/
theorem after_calls_fast (src : Nat → ReadResult) (s : State) (n : Nat)
    (h : s.buffer_pos + UUID_SIZE * n ≤ BUFFER_SIZE) :
    after_calls src s n
      = .ret ⟨s.urandom_fd, s.random_buffer, s.buffer_pos + UUID_SIZE * n, s.reads⟩ := by
  induction n with
  | zero => rfl
  | succ n ih =>
    have h1 : s.buffer_pos + UUID_SIZE * n ≤ BUFFER_SIZE := by
      simp only [UUID_SIZE, BUFFER_SIZE] at h ⊢
      omega
    have h2 : s.buffer_pos + UUID_SIZE * n + UUID_SIZE ≤ BUFFER_SIZE := by
      simp only [UUID_SIZE, BUFFER_SIZE] at h ⊢
      omega
    rw [after_calls, ih h1]
    simp only [Outcome.bind]
    rw [c_uuid4_fast src _ h2]
    simp only [Nat.mul_succ, Nat.add_assoc]

/-- Call number `n` of a run whose first `n + 1` slices fit. -/
theorem nth_call_fast (src : Nat → ReadResult) (s : State) (n : Nat)
    (h : s.buffer_pos + UUID_SIZE * (n + 1) ≤ BUFFER_SIZE) :
    nth_call src s n
      = .ret (set_version_variant
          (memcpy s.random_buffer (s.buffer_pos + UUID_SIZE * n) UUID_SIZE)) := by
  have h1 : s.buffer_pos + UUID_SIZE * n ≤ BUFFER_SIZE := by
    simp only [UUID_SIZE, BUFFER_SIZE] at h ⊢
    omega
  have h2 : s.buffer_pos + UUID_SIZE * n + UUID_SIZE ≤ BUFFER_SIZE := by
    simp only [UUID_SIZE, BUFFER_SIZE] at h ⊢
    omega
  rw [nth_call, after_calls_fast src s n h1]
  simp only [Outcome.bind]
  rw [c_uuid4_fast src _ h2]

/-- One call from a state of the sequential invariant hands out the next 16
bytes of the stream and re-establishes the invariant. -/
theorem seq_step (src : Nat → ReadResult) (hsrc : Delivers src) (n : Nat) (s : State)
    (hs : SeqInv src n s) :
    ∃ s1, c_uuid4 src s
        = .ret (set_version_variant (memcpy (stream src) (16 * n) UUID_SIZE), s1) ∧
      SeqInv src (n + 1) s1 := by
  obtain ⟨q, r, hn, hr, hpos, hreads, hfd, hbuf⟩ := hs
  by_cases hlt : r < 512
  · have hfit : s.buffer_pos + UUID_SIZE ≤ BUFFER_SIZE := by
      simp only [UUID_SIZE, BUFFER_SIZE]
      omega
    refine ⟨⟨s.urandom_fd, s.random_buffer, s.buffer_pos + UUID_SIZE, s.reads⟩, ?_, ?_⟩
    · rw [c_uuid4_fast src s hfit]
      congr 3
      apply memcpy_congr
      intro i hi
      simp only [UUID_SIZE] at hi
      have hi2 : s.buffer_pos + i < BUFFER_SIZE := by
        simp only [BUFFER_SIZE]
        omega
      rw [hbuf _ hi2]
      have hd : (16 * n + i) / BUFFER_SIZE = q := by
        simp only [BUFFER_SIZE]
        omega
      have hm : (16 * n + i) % BUFFER_SIZE = s.buffer_pos + i := by
        simp only [BUFFER_SIZE]
        omega
      simp only [stream, hd, hm]
    · exact ⟨q, r + 1, by omega, by omega, by simp only [UUID_SIZE]; omega, hreads, hfd, hbuf⟩
  · have hr512 : r = 512 := by omega
    have h1 : BUFFER_SIZE < s.buffer_pos + UUID_SIZE := by
      simp only [UUID_SIZE, BUFFER_SIZE]
      omega
    have h2 : s.buffer_pos + UUID_SIZE < SIZE_MOD := by
      rw [size_mod_eq]
      simp only [UUID_SIZE]
      omega
    have hf := fill_buffer_full src
      ⟨s.urandom_fd, s.random_buffer, s.buffer_pos + UUID_SIZE, s.reads⟩ hfd (hsrc _)
    have hcall := c_uuid4_refill src s _ h1 h2 hf
    simp only at hcall
    have hnew : ∀ i, i < BUFFER_SIZE →
        (src s.reads).store s.random_buffer i = (src (q + 1)).payload i := by
      intro i hi
      rw [store_full _ (hsrc _) _ i hi, hreads]
    refine ⟨⟨s.urandom_fd, (src s.reads).store s.random_buffer, UUID_SIZE, s.reads + 1⟩, ?_, ?_⟩
    · rw [hcall]
      congr 3
      apply memcpy_congr
      intro i hi
      simp only [UUID_SIZE] at hi
      have hi2 : 0 + i < BUFFER_SIZE := by
        simp only [BUFFER_SIZE]
        omega
      rw [hnew _ hi2]
      have hd : (16 * n + i) / BUFFER_SIZE = q + 1 := by
        simp only [BUFFER_SIZE]
        omega
      have hm : (16 * n + i) % BUFFER_SIZE = 0 + i := by
        simp only [BUFFER_SIZE]
        omega
      simp only [stream, hd, hm]
    · exact ⟨q + 1, 1, by omega, by omega, by simp only [UUID_SIZE], by simp only; omega, hfd,
        hnew⟩

/-- A sequential run from a state of the invariant never ends early, and the
invariant holds before every call. -/
theorem seq_after_calls (src : Nat → ReadResult) (hsrc : Delivers src) (m : Nat) (s : State)
    (hs : SeqInv src m s) (n : Nat) :
    ∃ sn, after_calls src s n = .ret sn ∧ SeqInv src (m + n) sn := by
  induction n with
  | zero => exact ⟨s, rfl, hs⟩
  | succ n ih =>
    obtain ⟨sn, hrun, hinv⟩ := ih
    obtain ⟨s1, hcall, hinv1⟩ := seq_step src hsrc (m + n) sn hinv
    refine ⟨s1, ?_, hinv1⟩
    rw [after_calls, hrun]
    simp only [Outcome.bind, hcall]

/-- A successful `init_rng` from the load-time state: the first read fills the
buffer, the cursor is 0 and one read has been made. -/
theorem init_rng_ok (src : Nat → ReadResult) (fd : Int) (hfd : fd ≠ -1)
    (h0 : (src 0).bytes_read = (BUFFER_SIZE : Int)) :
    init_rng src fd initial = .ret ⟨fd, (src 0).store (fun _ => 0), 0, 1⟩ :=
  fill_buffer_full src ⟨fd, fun _ => 0, BUFFER_SIZE, 0⟩ hfd h0

theorem init_rng_seq_inv (src : Nat → ReadResult) (fd : Int) (hfd : fd ≠ -1)
    (hsrc : Delivers src) : SeqInv src 0 ⟨fd, (src 0).store (fun _ => 0), 0, 1⟩ :=
  ⟨0, 0, rfl, by omega, rfl, rfl, hfd, fun i hi => store_full _ (hsrc 0) _ i hi⟩

/-! ## Version and variant bits (C1, C2, C4) -/

/-- C1: whatever the buffer holds and wherever the cursor stands, when `c_uuid4`
returns, the 16 bytes it wrote have `0100` as the high nibble of byte 6 and `10`
as the top two bits of byte 8. -/
theorem c_uuid4_version_variant_bits (src : Nat → ReadResult) (s s1 : State) (u : List Nat)
    (h : c_uuid4 src s = .ret (u, s1)) :
    u.length = 16 ∧ u.getD 6 0 &&& 0xF0 = 0x40 ∧ u.getD 8 0 &&& 0xC0 = 0x80 := by
  obtain ⟨p, _, _, hu⟩ := (c_uuid4_ret_iff src s s1 u).mp h
  rw [hu, uuid_of_buffer]
  exact ⟨rfl, version_byte_high _, variant_byte_high _⟩

/-- Witness of C1: a buffer holding `i % 256` at index `i`, cursor at 32. -/
theorem c_uuid4_version_variant_bits_witness :
    c_uuid4 (fun _ => .error) ⟨3, fun i => i % 256, 32, 1⟩
        = .ret ([32, 33, 34, 35, 36, 37, 0x46, 39, 0xA8, 41, 42, 43, 44, 45, 46, 47],
            ⟨3, fun i => i % 256, 48, 1⟩) ∧
      ([32, 33, 34, 35, 36, 37, 0x46, 39, 0xA8, 41, 42, 43, 44, 45, 46, 47].length = 16 ∧
        [32, 33, 34, 35, 36, 37, 0x46, 39, 0xA8, 41, 42, 43, 44, 45, 46, 47].getD 6 0 &&& 0xF0
          = 0x40 ∧
        [32, 33, 34, 35, 36, 37, 0x46, 39, 0xA8, 41, 42, 43, 44, 45, 46, 47].getD 8 0 &&& 0xC0
          = 0x80) :=
  ⟨rfl, c_uuid4_version_variant_bits (fun _ => .error) ⟨3, fun i => i % 256, 32, 1⟩
    ⟨3, fun i => i % 256, 48, 1⟩ _ rfl⟩

/-- C2: when `c_uuid4` returns, with `p` the offset finally reserved, every
output byte other than bytes 6 and 8 is the buffer byte at `p + i`, the low
nibble of byte 6 is that of `buffer[p + 6]` and the low six bits of byte 8 are
those of `buffer[p + 8]`. -/
theorem c_uuid4_payload_unmodified (src : Nat → ReadResult) (s s1 : State) (u : List Nat)
    (h : c_uuid4 src s = .ret (u, s1)) :
    ∃ p, reserve src s = .ret (p, s1) ∧ p + 16 ≤ 8192 ∧ u.length = 16 ∧
      (∀ i, i < 16 → i ≠ 6 → i ≠ 8 → u.getD i 0 = s1.random_buffer (p + i)) ∧
      u.getD 6 0 &&& 0x0F = s1.random_buffer (p + 6) &&& 0x0F ∧
      u.getD 8 0 &&& 0x3F = s1.random_buffer (p + 8) &&& 0x3F := by
  obtain ⟨p, hr, hp, hu⟩ := (c_uuid4_ret_iff src s s1 u).mp h
  refine ⟨p, hr, hp, ?_⟩
  rw [hu, uuid_of_buffer]
  refine ⟨rfl, ?_, version_byte_low _, variant_byte_low _⟩
  intro i hi h6 h8
  interval_cases i <;> first | rfl | contradiction

/-- Witness of C2: a buffer holding `i % 256` at index `i`, cursor at 4096. -/
theorem c_uuid4_payload_unmodified_witness :
    ∃ p, reserve (fun _ => .error) ⟨3, fun i => i % 256, 4096, 1⟩
        = .ret (p, ⟨3, fun i => i % 256, 4112, 1⟩) ∧ p + 16 ≤ 8192 ∧
      [0, 1, 2, 3, 4, 5, 0x46, 7, 0x88, 9, 10, 11, 12, 13, 14, 15].length = 16 ∧
      (∀ i, i < 16 → i ≠ 6 → i ≠ 8 →
        [0, 1, 2, 3, 4, 5, 0x46, 7, 0x88, 9, 10, 11, 12, 13, 14, 15].getD i 0
          = (fun i => i % 256) (p + i)) ∧
      [0, 1, 2, 3, 4, 5, 0x46, 7, 0x88, 9, 10, 11, 12, 13, 14, 15].getD 6 0 &&& 0x0F
        = (fun i => i % 256) (p + 6) &&& 0x0F ∧
      [0, 1, 2, 3, 4, 5, 0x46, 7, 0x88, 9, 10, 11, 12, 13, 14, 15].getD 8 0 &&& 0x3F
        = (fun i => i % 256) (p + 8) &&& 0x3F :=
  c_uuid4_payload_unmodified (fun _ => .error) ⟨3, fun i => i % 256, 4096, 1⟩
    ⟨3, fun i => i % 256, 4112, 1⟩ [0, 1, 2, 3, 4, 5, 0x46, 7, 0x88, 9, 10, 11, 12, 13, 14, 15] rfl

/-- C4: the version/variant transform is idempotent: applied twice to the same
bytes it gives what it gives applied once. -/
theorem set_version_variant_idempotent (u : List Nat) :
    set_version_variant (set_version_variant u) = set_version_variant u := by
  rcases u with _ | ⟨a0, _ | ⟨a1, _ | ⟨a2, _ | ⟨a3, _ | ⟨a4, _ | ⟨a5, _ | ⟨a6, _ | ⟨a7, _ |
    ⟨a8, t⟩⟩⟩⟩⟩⟩⟩⟩⟩
  · rfl
  · rfl
  · rfl
  · rfl
  · rfl
  · rfl
  · rfl
  · rw [set_version_variant_seven, set_version_variant_seven, version_byte_idem]
  · rw [set_version_variant_eight, set_version_variant_eight, version_byte_idem]
  · rw [set_version_variant_cons, set_version_variant_cons, version_byte_idem, variant_byte_idem]

/-! ## End-to-end example (C3) -/

/-- C3: once `fill_buffer` has filled the buffer from a source that delivers
8192 zero bytes, `c_uuid4` returns `00000000-0000-4000-8000-000000000000`, at
each of the 512 calls that this fill serves. -/
theorem c_uuid4_zero_fill (src : Nat → ReadResult) (s : State) (hfd : s.urandom_fd ≠ -1)
    (hr : (src s.reads).bytes_read = 8192)
    (hz : ∀ i, i < 8192 → (src s.reads).payload i = 0) :
    ∃ s0, fill_buffer src s = .ret s0 ∧
      c_uuid4 src s0
        = .ret ([0, 0, 0, 0, 0, 0, 0x40, 0, 0x80, 0, 0, 0, 0, 0, 0, 0],
            ⟨s0.urandom_fd, s0.random_buffer, 16, s0.reads⟩) ∧
      ∀ n, n < 512 → nth_call src s0 n = .ret zero_uuid := by
  have hbuf : ∀ i, i < BUFFER_SIZE → (src s.reads).store s.random_buffer i = 0 := by
    intro i hi
    rw [store_full _ hr _ i hi]
    exact hz i hi
  have hcopy : ∀ p, p + 16 ≤ 8192 →
      set_version_variant (memcpy ((src s.reads).store s.random_buffer) p UUID_SIZE)
        = zero_uuid := by
    intro p hp
    have hc : memcpy ((src s.reads).store s.random_buffer) p UUID_SIZE
        = memcpy (fun _ => 0) 0 UUID_SIZE := by
      apply memcpy_congr
      intro i hi
      simp only [UUID_SIZE] at hi
      exact hbuf _ (by simp only [BUFFER_SIZE]; omega)
    rw [hc]
    rfl
  refine ⟨_, fill_buffer_full src s hfd hr, ?_, ?_⟩
  · rw [c_uuid4_fast src _ (by simp only [UUID_SIZE, BUFFER_SIZE]; omega)]
    simp only
    rw [hcopy 0 (by omega)]
    rfl
  · intro n hn
    rw [nth_call_fast src _ n (by simp only [UUID_SIZE, BUFFER_SIZE]; omega)]
    simp only
    rw [hcopy _ (by simp only [UUID_SIZE]; omega)]

/-- Witness of C3: a refill of an exhausted buffer that held other bytes. -/
theorem c_uuid4_zero_fill_witness :
    (3 : Int) ≠ -1 ∧
    ∃ s0, fill_buffer (fun _ => .delivered 8192 (fun _ => 0))
          ⟨3, fun i => i % 256, 8192, 5⟩ = .ret s0 ∧
      c_uuid4 (fun _ => .delivered 8192 (fun _ => 0)) s0
        = .ret ([0, 0, 0, 0, 0, 0, 0x40, 0, 0x80, 0, 0, 0, 0, 0, 0, 0],
            ⟨s0.urandom_fd, s0.random_buffer, 16, s0.reads⟩) ∧
      ∀ n, n < 512 → nth_call (fun _ => .delivered 8192 (fun _ => 0)) s0 n = .ret zero_uuid :=
  ⟨by decide, c_uuid4_zero_fill (fun _ => .delivered 8192 (fun _ => 0))
    ⟨3, fun i => i % 256, 8192, 5⟩ (by decide) rfl
    (fun i _ => by simp only [ReadResult.payload, ite_self])⟩

/-! ## Refill boundary (C5) -/

/-- C5: after a successful initialization, with a source that always delivers
8192 bytes, the first 512 calls make no refill (no read, same buffer) and leave
the cursor at 8192; the 513th call makes exactly one refill, returns the
transform of bytes 0..15 of the buffer that refill wrote, and returns. -/
theorem refill_boundary (src : Nat → ReadResult) (fd : Int) (hfd : fd ≠ -1)
    (hsrc : Delivers src) :
    ∃ s0, init_rng src fd initial = .ret s0 ∧ s0.reads = 1 ∧
      (∀ n, n ≤ 512 →
        after_calls src s0 n = .ret ⟨s0.urandom_fd, s0.random_buffer, 16 * n, 1⟩) ∧
      after_calls src s0 512 = .ret ⟨s0.urandom_fd, s0.random_buffer, 8192, 1⟩ ∧
      ∃ s513, c_uuid4 src ⟨s0.urandom_fd, s0.random_buffer, 8192, 1⟩
            = .ret (set_version_variant (memcpy s513.random_buffer 0 16), s513) ∧
        s513.reads = 2 ∧ s513.buffer_pos = 16 ∧
        (∀ i, i < 8192 → s513.random_buffer i = (src 1).payload i) ∧
        after_calls src s0 513 = .ret s513 := by
  have hfast : ∀ n, n ≤ 512 →
      after_calls src ⟨fd, (src 0).store (fun _ => 0), 0, 1⟩ n
        = .ret ⟨fd, (src 0).store (fun _ => 0), 16 * n, 1⟩ := by
    intro n hn
    rw [after_calls_fast src _ n (by simp only [UUID_SIZE, BUFFER_SIZE]; omega)]
    simp only [UUID_SIZE, Nat.zero_add]
  have hf := fill_buffer_full src ⟨fd, (src 0).store (fun _ => 0), 8192 + UUID_SIZE, 1⟩ hfd
    (hsrc _)
  have hcall := c_uuid4_refill src ⟨fd, (src 0).store (fun _ => 0), 8192, 1⟩ _
    (by simp only [UUID_SIZE, BUFFER_SIZE]; omega)
    (by rw [size_mod_eq]; simp only [UUID_SIZE]; omega) hf
  simp only at hcall
  refine ⟨⟨fd, (src 0).store (fun _ => 0), 0, 1⟩, init_rng_ok src fd hfd (hsrc 0), rfl, hfast,
    hfast 512 (by omega),
    ⟨fd, (src 1).store ((src 0).store (fun _ => 0)), 16, 2⟩, hcall, rfl, rfl, ?_, ?_⟩
  · intro i hi
    exact store_full _ (hsrc 1) _ i hi
  · rw [after_calls, hfast 512 (by omega)]
    simp only [Outcome.bind, hcall]
    rfl

/-- Witness of C5: descriptor 3 and a source whose `k`-th read delivers 8192 bytes `k`. -/
theorem refill_boundary_witness :
    (3 : Int) ≠ -1 ∧ Delivers counting_source ∧
    ∃ s0, init_rng counting_source 3 initial = .ret s0 ∧ s0.reads = 1 ∧
      (∀ n, n ≤ 512 →
        after_calls counting_source s0 n = .ret ⟨s0.urandom_fd, s0.random_buffer, 16 * n, 1⟩) ∧
      after_calls counting_source s0 512 = .ret ⟨s0.urandom_fd, s0.random_buffer, 8192, 1⟩ ∧
      ∃ s513, c_uuid4 counting_source ⟨s0.urandom_fd, s0.random_buffer, 8192, 1⟩
            = .ret (set_version_variant (memcpy s513.random_buffer 0 16), s513) ∧
        s513.reads = 2 ∧ s513.buffer_pos = 16 ∧
        (∀ i, i < 8192 → s513.random_buffer i = (counting_source 1).payload i) ∧
        after_calls counting_source s0 513 = .ret s513 :=
  ⟨by decide, counting_source_delivers,
    refill_boundary counting_source 3 (by decide) counting_source_delivers⟩

/-! ## Failure of the entropy source (C7, C8) -/

/-- A slice of a zeroed buffer gives the zero UUID. -/
theorem zero_copy (p : Nat) :
    set_version_variant (memcpy (fun _ => 0) p UUID_SIZE) = zero_uuid := by
  rw [uuid_of_buffer]
  rfl

/-- Without a descriptor, a call from a zeroed buffer returns the zero UUID,
reads nothing and leaves the buffer zeroed. -/
theorem no_fd_step (src : Nat → ReadResult) (pos : Nat) (hpos : pos ≤ BUFFER_SIZE) :
    ∃ pos1, pos1 ≤ BUFFER_SIZE ∧
      c_uuid4 src ⟨-1, fun _ => 0, pos, 0⟩ = .ret (zero_uuid, ⟨-1, fun _ => 0, pos1, 0⟩) := by
  by_cases hfit : pos + UUID_SIZE ≤ BUFFER_SIZE
  · refine ⟨pos + UUID_SIZE, hfit, ?_⟩
    rw [c_uuid4_fast src ⟨-1, fun _ => 0, pos, 0⟩ hfit]
    simp only [zero_copy]
  · refine ⟨UUID_SIZE, by decide, ?_⟩
    have hf := fill_buffer_no_fd src ⟨-1, fun _ => 0, pos + UUID_SIZE, 0⟩ rfl
    have h1 : BUFFER_SIZE < pos + UUID_SIZE := by omega
    have h2 : pos + UUID_SIZE < SIZE_MOD := by
      rw [size_mod_eq]
      simp only [UUID_SIZE, BUFFER_SIZE] at hpos ⊢
      omega
    rw [c_uuid4_refill src ⟨-1, fun _ => 0, pos, 0⟩ _ h1 h2 hf]
    simp only [zero_copy]

theorem no_fd_after_calls (src : Nat → ReadResult) (n : Nat) :
    ∃ pos, pos ≤ BUFFER_SIZE ∧
      after_calls src ⟨-1, fun _ => 0, 0, 0⟩ n = .ret ⟨-1, fun _ => 0, pos, 0⟩ := by
  induction n with
  | zero => exact ⟨0, by decide, rfl⟩
  | succ n ih =>
    obtain ⟨pos, hpos, hrun⟩ := ih
    obtain ⟨pos1, hpos1, hcall⟩ := no_fd_step src pos hpos
    refine ⟨pos1, hpos1, ?_⟩
    rw [after_calls, hrun]
    simp only [Outcome.bind, hcall]

/-- C7, the code at the failing input: when `open` returns `-1`, `init_rng`
returns normally with the cursor at 0 and no byte read, and every later call of
`c_uuid4` returns `00000000-0000-4000-8000-000000000000`, built from the zeroed
static buffer, with still no byte read from the source. -/
theorem open_failure_not_fatal (src : Nat → ReadResult) :
    init_rng src (-1) initial = .ret ⟨-1, fun _ => 0, 0, 0⟩ ∧
      ∀ n, nth_call src ⟨-1, fun _ => 0, 0, 0⟩ n = .ret zero_uuid ∧
        ∃ sn, after_calls src ⟨-1, fun _ => 0, 0, 0⟩ n = .ret sn ∧ sn.reads = 0 := by
  refine ⟨fill_buffer_no_fd src ⟨-1, fun _ => 0, BUFFER_SIZE, 0⟩ rfl, fun n => ⟨?_, ?_⟩⟩
  · obtain ⟨pos, hpos, hrun⟩ := no_fd_after_calls src n
    obtain ⟨pos1, _, hcall⟩ := no_fd_step src pos hpos
    rw [nth_call, hrun]
    simp only [Outcome.bind, hcall]
  · obtain ⟨pos, _, hrun⟩ := no_fd_after_calls src n
    exact ⟨_, hrun, rfl⟩

/-- C8: on a descriptor other than `-1`, when the next read delivers anything
but exactly 8192 bytes, the refill ends the process in `exit(1)` with the cursor
not reset: in `fill_buffer` itself, in `init_rng`, and in a call of `c_uuid4`
that refills (which then returns no UUID; its cursor stands past the buffer). -/
theorem short_read_fatal (src : Nat → ReadResult) (s : State) (fd : Int) (hfd : fd ≠ -1)
    (hshort : (src s.reads).bytes_read ≠ (BUFFER_SIZE : Int)) :
    (∃ e, fill_buffer src ⟨fd, s.random_buffer, s.buffer_pos, s.reads⟩ = .exited 1 e ∧
        e.buffer_pos = s.buffer_pos) ∧
      (∃ e, init_rng src fd s = .exited 1 e ∧ e.buffer_pos = s.buffer_pos) ∧
      ((s.buffer_pos + UUID_SIZE) % SIZE_MOD > BUFFER_SIZE →
        ∃ e, c_uuid4 src ⟨fd, s.random_buffer, s.buffer_pos, s.reads⟩ = .exited 1 e ∧
          e.buffer_pos = (s.buffer_pos + UUID_SIZE) % SIZE_MOD ∧ e.buffer_pos ≠ 0) := by
  refine ⟨⟨_, fill_buffer_short src ⟨fd, s.random_buffer, s.buffer_pos, s.reads⟩ hfd hshort, rfl⟩,
    ⟨_, fill_buffer_short src ⟨fd, s.random_buffer, s.buffer_pos, s.reads⟩ hfd hshort, rfl⟩, ?_⟩
  intro hex
  have hf := fill_buffer_short src
    ⟨fd, s.random_buffer, (s.buffer_pos + UUID_SIZE) % SIZE_MOD, s.reads⟩ hfd hshort
  refine ⟨⟨fd, (src s.reads).store s.random_buffer, (s.buffer_pos + UUID_SIZE) % SIZE_MOD,
    s.reads + 1⟩, ?_, rfl, ?_⟩
  · simp only [c_uuid4, reserve, fetch_add, hex, if_true, hf, Outcome.bind]
  · simp only [BUFFER_SIZE] at hex
    simp only
    omega

/-- Witness of C8: descriptor 3, an exhausted buffer, and a read that delivers 100 bytes. -/
theorem short_read_fatal_witness :
    (3 : Int) ≠ -1 ∧
    (∃ e, fill_buffer (fun _ => .delivered 100 (fun _ => 7))
          ⟨3, fun i => i % 256, 8192, 1⟩ = .exited 1 e ∧ e.buffer_pos = 8192) ∧
      (∃ e, init_rng (fun _ => .delivered 100 (fun _ => 7)) 3
          ⟨-1, fun i => i % 256, 8192, 1⟩ = .exited 1 e ∧ e.buffer_pos = 8192) ∧
      (∃ e, c_uuid4 (fun _ => .delivered 100 (fun _ => 7))
          ⟨3, fun i => i % 256, 8192, 1⟩ = .exited 1 e ∧
        e.buffer_pos = (8192 + UUID_SIZE) % SIZE_MOD ∧ e.buffer_pos ≠ 0) :=
  have h := short_read_fatal (fun _ => .delivered 100 (fun _ => 7))
    ⟨-1, fun i => i % 256, 8192, 1⟩ 3 (by decide)
    (by simp only [ReadResult.bytes_read, BUFFER_SIZE]; decide)
  ⟨by decide, h.1, h.2.1, h.2.2 (by rw [size_mod_eq]; decide)⟩

/-! ## Cursor invariant (C9) -/

/-- Whenever the reservation of `c_uuid4` returns, the cursor is within the buffer. -/
theorem reserve_ret_pos (src : Nat → ReadResult) (s s1 : State) (p : Nat)
    (h : reserve src s = .ret (p, s1)) : s1.buffer_pos ≤ BUFFER_SIZE := by
  unfold reserve at h
  simp only [fetch_add] at h
  split at h
  · cases hf : fill_buffer src
        ⟨s.urandom_fd, s.random_buffer, (s.buffer_pos + UUID_SIZE) % SIZE_MOD, s.reads⟩ with
    | ret s2 =>
      rw [hf] at h
      simp only [Outcome.bind] at h
      injection h with h
      injection h with _ h2
      subst h2
      have hp := fill_buffer_ret_pos _ _ _ hf
      simp only [hp, size_mod_eq, UUID_SIZE, BUFFER_SIZE]
      omega
    | exited c e =>
      rw [hf] at h
      cases h
    | fault =>
      rw [hf] at h
      cases h
  · injection h with h
    injection h with _ h2
    subst h2
    simp only
    omega

/-- C9, as amended: in sequential execution the cursor invariant
`0 ≤ buffer_pos ≤ 8192` holds in the load-time state and in every state between
completed operations (`init_rng`, `fill_buffer`, `c_uuid4`), whatever `open` and
`read` do; inside a call of `c_uuid4` the cursor right after the first
`atomic_fetch_add` (line 55) is at most `8192 + 16`. -/
theorem cursor_invariant (src : Nat → ReadResult) (s : State) (h : Reachable src s) :
    0 ≤ s.buffer_pos ∧ s.buffer_pos ≤ BUFFER_SIZE ∧
      (fetch_add s UUID_SIZE).2.buffer_pos ≤ BUFFER_SIZE + UUID_SIZE := by
  have hle : s.buffer_pos ≤ BUFFER_SIZE := by
    induction h with
    | start => exact Nat.le_refl _
    | init s s1 fd _ hstep _ =>
      rw [fill_buffer_ret_pos _ _ _ hstep]
      exact Nat.zero_le _
    | refill s s1 _ hstep _ =>
      rw [fill_buffer_ret_pos _ _ _ hstep]
      exact Nat.zero_le _
    | call s s1 u _ hstep _ =>
      obtain ⟨p, hres, _, _⟩ := (c_uuid4_ret_iff src s s1 u).mp hstep
      exact reserve_ret_pos src s s1 p hres
  refine ⟨Nat.zero_le _, hle, ?_⟩
  simp only [fetch_add, size_mod_eq, UUID_SIZE, BUFFER_SIZE] at hle ⊢
  omega

/-- Witness of C9 as amended: the state after a successful `init_rng` and 512
calls, where the first `atomic_fetch_add` of the next call takes the cursor to
`8192 + 16`. -/
theorem cursor_invariant_witness :
    Reachable counting_source
        ⟨3, (counting_source 0).store (fun _ => 0), 0 + UUID_SIZE * 512, 1⟩ ∧
      (0 ≤ 0 + UUID_SIZE * 512 ∧ 0 + UUID_SIZE * 512 ≤ BUFFER_SIZE ∧
        (0 + UUID_SIZE * 512 + UUID_SIZE) % SIZE_MOD ≤ BUFFER_SIZE + UUID_SIZE) := by
  have hinit : init_rng counting_source 3 initial
      = .ret ⟨3, (counting_source 0).store (fun _ => 0), 0, 1⟩ :=
    init_rng_ok counting_source 3 (by decide) (counting_source_delivers 0)
  have hfit : 0 + UUID_SIZE * 512 ≤ BUFFER_SIZE := by decide
  have hstart : Reachable counting_source
      ⟨3, (counting_source 0).store (fun _ => 0), 0, 1⟩ :=
    Reachable.init _ _ 3 Reachable.start hinit
  have hreach : Reachable counting_source
      ⟨3, (counting_source 0).store (fun _ => 0), 0 + UUID_SIZE * 512, 1⟩ := by
    have hgen : ∀ n, 0 + UUID_SIZE * n ≤ BUFFER_SIZE → Reachable counting_source
        ⟨3, (counting_source 0).store (fun _ => 0), 0 + UUID_SIZE * n, 1⟩ := by
      intro n
      induction n with
      | zero => exact fun _ => hstart
      | succ n ih =>
        intro hn
        have hn1 : 0 + UUID_SIZE * n + UUID_SIZE ≤ BUFFER_SIZE := by
          simp only [UUID_SIZE, BUFFER_SIZE] at hn ⊢
          omega
        have hprev := ih (by simp only [UUID_SIZE, BUFFER_SIZE] at hn ⊢; omega)
        have hcall := c_uuid4_fast counting_source
          ⟨3, (counting_source 0).store (fun _ => 0), 0 + UUID_SIZE * n, 1⟩ hn1
        simp only at hcall
        exact Reachable.call _ _ _ hprev hcall
    exact hgen 512 hfit
  exact ⟨hreach, cursor_invariant _ _ hreach⟩

/-! ## Every byte of the source is handed out once (C10) -/

/-- C10: in a sequential run after a successful `init_rng`, with a source that
always delivers 8192 bytes, call number `n` (from 0) returns the transform of
bytes `16 n .. 16 n + 15` of the concatenation of the successive reads; so each
byte of that stream lies in the slice of exactly one call. -/
theorem nth_call_stream_slice (src : Nat → ReadResult) (fd : Int) (hfd : fd ≠ -1)
    (hsrc : Delivers src) :
    ∃ s0, init_rng src fd initial = .ret s0 ∧
      (∀ n, nth_call src s0 n
        = .ret (set_version_variant (memcpy (stream src) (16 * n) UUID_SIZE))) ∧
      ∀ j, ∃! n, 16 * n ≤ j ∧ j < 16 * n + 16 := by
  refine ⟨_, init_rng_ok src fd hfd (hsrc 0), ?_, ?_⟩
  · intro n
    obtain ⟨sn, hrun, hinv⟩ := seq_after_calls src hsrc 0 _ (init_rng_seq_inv src fd hfd hsrc) n
    rw [Nat.zero_add] at hinv
    obtain ⟨s1, hcall, _⟩ := seq_step src hsrc n sn hinv
    rw [nth_call, hrun]
    simp only [Outcome.bind, hcall]
  · intro j
    refine ⟨j / 16, ⟨by omega, by omega⟩, ?_⟩
    rintro n ⟨h1, h2⟩
    omega

/-- Witness of C10: descriptor 3 and a source whose `k`-th read delivers 8192 bytes `k`. -/
theorem nth_call_stream_slice_witness :
    (3 : Int) ≠ -1 ∧ Delivers counting_source ∧
    ∃ s0, init_rng counting_source 3 initial = .ret s0 ∧
      (∀ n, nth_call counting_source s0 n
        = .ret (set_version_variant (memcpy (stream counting_source) (16 * n) UUID_SIZE))) ∧
      ∀ j, ∃! n, 16 * n ≤ j ∧ j < 16 * n + 16 :=
  ⟨by decide, counting_source_delivers,
    nth_call_stream_slice counting_source 3 (by decide) counting_source_delivers⟩

/-! ## Concurrent callers (C6) -/

theorem run_append (src : Nat → ReadResult) (l1 l2 : List Nat) (σ : System) :
    run src σ (l1 ++ l2) = (run src σ l1).bind fun σ1 => run src σ1 l2 := by
  induction l1 generalizing σ with
  | nil => rfl
  | cons t ts ih =>
    simp only [List.cons_append, run]
    cases step src σ t with
    | ret σ1 => exact ih σ1
    | exited c e => rfl
    | fault => rfl

/-- Moving a thread away from `idle` and back leaves the positions as they were. -/
theorem set_pc_restore (pcs : Nat → Pc) (t : Nat) (pc : Pc) (h : pcs t = .idle) :
    set_pc (set_pc pcs t pc) t .idle = pcs := by
  funext i
  unfold set_pc
  by_cases hi : i = t
  · simp only [hi, if_true, h]
  · simp only [hi, if_false]

/-- An idle thread whose slice fits completes its call in two steps, and only
the cursor and the log change. -/
theorem run_one_fast_call (src : Nat → ReadResult) (t : Nat) (σ : System)
    (hidle : σ.pcs t = .idle) (hfit : σ.shared.buffer_pos + UUID_SIZE ≤ BUFFER_SIZE) :
    ∃ a, run src σ [t, t]
      = .ret ⟨⟨σ.shared.urandom_fd, σ.shared.random_buffer, σ.shared.buffer_pos + UUID_SIZE,
          σ.shared.reads⟩, σ.pcs, a :: σ.log⟩ := by
  have hlt : σ.shared.buffer_pos + UUID_SIZE < SIZE_MOD := by
    rw [size_mod_eq]
    simp only [UUID_SIZE, BUFFER_SIZE] at hfit ⊢
    omega
  have hn : ¬ σ.shared.buffer_pos + UUID_SIZE > BUFFER_SIZE := by omega
  have hself : set_pc σ.pcs t (.copy σ.shared.buffer_pos) t = .copy σ.shared.buffer_pos := by
    simp only [set_pc, if_true]
  refine ⟨⟨t, σ.shared.reads, σ.shared.buffer_pos,
    memcpy σ.shared.random_buffer σ.shared.buffer_pos UUID_SIZE,
    set_version_variant (memcpy σ.shared.random_buffer σ.shared.buffer_pos UUID_SIZE)⟩, ?_⟩
  simp only [run, step, hidle, fetch_add, Nat.mod_eq_of_lt hlt, hn, if_false, Outcome.bind,
    hself, hfit, if_true, set_pc_restore σ.pcs t _ hidle]

/-- An idle thread running alone while its slices fit: `n` calls in `2 * n` steps. -/
theorem run_fast_calls (src : Nat → ReadResult) (t n : Nat) (σ : System)
    (hidle : σ.pcs t = .idle) (hfit : σ.shared.buffer_pos + UUID_SIZE * n ≤ BUFFER_SIZE) :
    ∃ log, run src σ (List.replicate (2 * n) t)
      = .ret ⟨⟨σ.shared.urandom_fd, σ.shared.random_buffer, σ.shared.buffer_pos + UUID_SIZE * n,
          σ.shared.reads⟩, σ.pcs, log⟩ := by
  induction n generalizing σ with
  | zero => exact ⟨σ.log, rfl⟩
  | succ n ih =>
    have h1 : σ.shared.buffer_pos + UUID_SIZE ≤ BUFFER_SIZE := by
      simp only [UUID_SIZE, BUFFER_SIZE] at hfit ⊢
      omega
    obtain ⟨a, ha⟩ := run_one_fast_call src t σ hidle h1
    obtain ⟨log, hlog⟩ := ih
      ⟨⟨σ.shared.urandom_fd, σ.shared.random_buffer, σ.shared.buffer_pos + UUID_SIZE,
        σ.shared.reads⟩, σ.pcs, a :: σ.log⟩ hidle
      (by simp only [UUID_SIZE, BUFFER_SIZE] at hfit ⊢; omega)
    refine ⟨log, ?_⟩
    have hsplit : List.replicate (2 * (n + 1)) t = [t, t] ++ List.replicate (2 * n) t := by
      rw [show 2 * (n + 1) = 2 * n + 1 + 1 by omega, List.replicate_succ, List.replicate_succ]
      rfl
    rw [hsplit, run_append, ha]
    simp only [Outcome.bind]
    rw [hlog]
    have harith : σ.shared.buffer_pos + UUID_SIZE + UUID_SIZE * n
        = σ.shared.buffer_pos + UUID_SIZE * (n + 1) := by
      simp only [UUID_SIZE]
      omega
    simp only [harith]

/-- Two threads meeting at an exhausted buffer: both refill, both reserve offset
0, both copy the same bytes of the same fill. -/
theorem run_two_refills (src : Nat → ReadResult) (fd : Int) (buf : Nat → Nat) (k : Nat)
    (log : List Allocation) (hfd : fd ≠ -1) (hsrc : Delivers src) :
    run src ⟨⟨fd, buf, BUFFER_SIZE, k⟩, fun _ => .idle, log⟩ [0, 1, 0, 0, 1, 1, 0, 1]
      = .ret ⟨⟨fd, (src (k + 1)).store ((src k).store buf), UUID_SIZE, k + 1 + 1⟩,
          fun _ => .idle,
          ⟨1, k + 1 + 1, 0, memcpy ((src (k + 1)).store ((src k).store buf)) 0 UUID_SIZE,
            set_version_variant
              (memcpy ((src (k + 1)).store ((src k).store buf)) 0 UUID_SIZE)⟩ ::
          ⟨0, k + 1 + 1, 0, memcpy ((src (k + 1)).store ((src k).store buf)) 0 UUID_SIZE,
            set_version_variant
              (memcpy ((src (k + 1)).store ((src k).store buf)) 0 UUID_SIZE)⟩ :: log⟩ := by
  have h1 : (BUFFER_SIZE + UUID_SIZE) % SIZE_MOD > BUFFER_SIZE := by
    rw [size_mod_eq]
    decide
  have h2 : ((BUFFER_SIZE + UUID_SIZE) % SIZE_MOD + UUID_SIZE) % SIZE_MOD > BUFFER_SIZE := by
    rw [size_mod_eq]
    decide
  have h3 : (0 + UUID_SIZE) % SIZE_MOD = UUID_SIZE := by
    rw [size_mod_eq]
    rfl
  have h4 : 0 + UUID_SIZE ≤ BUFFER_SIZE := by decide
  have hf1 := fill_buffer_full src
    ⟨fd, buf, ((BUFFER_SIZE + UUID_SIZE) % SIZE_MOD + UUID_SIZE) % SIZE_MOD, k⟩ hfd (hsrc _)
  have hf2 := fill_buffer_full src ⟨fd, (src k).store buf, UUID_SIZE, k + 1⟩ hfd (hsrc _)
  have hpcs : set_pc (set_pc (set_pc (set_pc (set_pc (set_pc (set_pc (set_pc
      (fun _ => Pc.idle) 0 .refill) 1 .refill) 0 .second_add) 0 (.copy 0)) 1 .second_add)
      1 (.copy 0)) 0 .idle) 1 .idle = fun _ => Pc.idle := by
    funext i
    simp only [set_pc]
    split_ifs <;> rfl
  simp only [run, step, set_pc, fetch_add, h1, h2, h3, h4, if_true, Outcome.bind, hf1, hf2,
    Nat.one_ne_zero, Nat.zero_ne_one, if_false]
  simp only [set_pc] at hpcs
  rw [hpcs]

/-- C6, the code at a failing schedule: after a successful `init_rng`, run
`overlap_schedule`. No step exits or faults, and the last two calls to complete,
one of thread 1 and one of thread 0, both copied offset 0 of the buffer as the
third read left it: the same byte range of the same fill cycle, the same raw
payload, the same UUID. -/
theorem concurrent_calls_overlap :
    ∃ s0 σ a b rest, init_rng counting_source 3 initial = .ret s0 ∧
      run counting_source (System.start s0) overlap_schedule = .ret σ ∧
      σ.log = a :: b :: rest ∧ a.thread = 1 ∧ b.thread = 0 ∧ a.overlaps b ∧
      a.fill = 3 ∧ b.fill = 3 ∧ a.offset = 0 ∧ b.offset = 0 ∧
      a.raw = b.raw ∧ a.uuid = b.uuid := by
  obtain ⟨log, hlog⟩ := run_fast_calls counting_source 0 512
    (System.start ⟨3, (counting_source 0).store (fun _ => 0), 0, 1⟩) rfl (by decide)
  have hrun := run_two_refills counting_source 3 ((counting_source 0).store (fun _ => 0)) 1 log
    (by decide) counting_source_delivers
  have hsplit := run_append counting_source (List.replicate (2 * 512) 0) [0, 1, 0, 0, 1, 1, 0, 1]
    (System.start ⟨3, (counting_source 0).store (fun _ => 0), 0, 1⟩)
  have hfull := (hsplit.trans
    (congrArg (fun o => o.bind fun σ1 => run counting_source σ1 [0, 1, 0, 0, 1, 1, 0, 1])
      hlog)).trans hrun
  exact ⟨_, _, _, _, log, init_rng_ok counting_source 3 (by decide) (counting_source_delivers 0),
    hfull, rfl, rfl, rfl, ⟨rfl, by decide, by decide⟩, rfl, rfl, rfl, rfl, rfl, rfl⟩

/-! ## The two paths and the initial fill (C12, C13, C14) -/

/-- C12: fast path. In a state with `buffer_pos + 16 ≤ 8192`, `c_uuid4` makes no
read, leaves every buffer byte as it was, advances the cursor by exactly 16 and
returns the transform of the 16 buffer bytes at the cursor value it found. -/
theorem fast_path (src : Nat → ReadResult) (s : State) (h : s.buffer_pos + 16 ≤ 8192) :
    ∃ s1, c_uuid4 src s
        = .ret (set_version_variant (memcpy s.random_buffer s.buffer_pos 16), s1) ∧
      s1.reads = s.reads ∧ (∀ i, i < 8192 → s1.random_buffer i = s.random_buffer i) ∧
      s1.buffer_pos = s.buffer_pos + 16 ∧ s1.urandom_fd = s.urandom_fd :=
  ⟨_, c_uuid4_fast src s h, rfl, fun _ _ => rfl, rfl, rfl⟩

/-- Witness of C12: a buffer holding `i % 256` at index `i`, cursor at 4096. -/
theorem fast_path_witness :
    4096 + 16 ≤ 8192 ∧
    ∃ s1, c_uuid4 (fun _ => .error) ⟨3, fun i => i % 256, 4096, 1⟩
        = .ret (set_version_variant (memcpy (fun i => i % 256) 4096 16), s1) ∧
      s1.reads = 1 ∧ (∀ i, i < 8192 → s1.random_buffer i = (fun i => i % 256) i) ∧
      s1.buffer_pos = 4096 + 16 ∧ s1.urandom_fd = 3 :=
  ⟨by decide, fast_path (fun _ => .error) ⟨3, fun i => i % 256, 4096, 1⟩ (by decide)⟩

/-- C13: exhausted path. In a state with a descriptor where the test of line 58
succeeds (`buffer_pos + 16 > 8192` in `size_t` arithmetic) and the source
delivers 8192 bytes, `c_uuid4` makes exactly one read, after which the 8192
buffer bytes are the bytes of that read; it returns the transform of bytes
0..15 of the new buffer and leaves the cursor at 16. -/
theorem exhausted_path (src : Nat → ReadResult) (s : State) (hfd : s.urandom_fd ≠ -1)
    (hex : (s.buffer_pos + UUID_SIZE) % SIZE_MOD > BUFFER_SIZE)
    (hr : (src s.reads).bytes_read = 8192) :
    ∃ s1, c_uuid4 src s = .ret (set_version_variant (memcpy s1.random_buffer 0 16), s1) ∧
      s1.reads = s.reads + 1 ∧ (∀ i, i < 8192 → s1.random_buffer i = (src s.reads).payload i) ∧
      s1.buffer_pos = 16 ∧ s1.urandom_fd = s.urandom_fd := by
  have hf := fill_buffer_full src
    ⟨s.urandom_fd, s.random_buffer, (s.buffer_pos + UUID_SIZE) % SIZE_MOD, s.reads⟩ hfd hr
  have h0 : (0 + UUID_SIZE) % SIZE_MOD = UUID_SIZE := by
    rw [size_mod_eq]
    rfl
  have hle : 0 + UUID_SIZE ≤ BUFFER_SIZE := by decide
  refine ⟨⟨s.urandom_fd, (src s.reads).store s.random_buffer, 16, s.reads + 1⟩, ?_, rfl,
    fun i hi => store_full _ hr _ i hi, rfl, rfl⟩
  simp only [c_uuid4, reserve, fetch_add, hex, if_true, hf, Outcome.bind, h0, hle]
  rfl

/-- Witness of C13: descriptor 3, cursor at 8192, a read of 8192 bytes of value 1. -/
theorem exhausted_path_witness :
    (3 : Int) ≠ -1 ∧ (8192 + UUID_SIZE) % SIZE_MOD > BUFFER_SIZE ∧
    (counting_source 1).bytes_read = 8192 ∧
    ∃ s1, c_uuid4 counting_source ⟨3, fun i => i % 256, 8192, 1⟩
        = .ret (set_version_variant (memcpy s1.random_buffer 0 16), s1) ∧
      s1.reads = 1 + 1 ∧ (∀ i, i < 8192 → s1.random_buffer i = (counting_source 1).payload i) ∧
      s1.buffer_pos = 16 ∧ s1.urandom_fd = 3 :=
  ⟨by decide, by rw [size_mod_eq]; decide, rfl,
    exhausted_path counting_source ⟨3, fun i => i % 256, 8192, 1⟩ (by decide)
      (by rw [size_mod_eq]; decide) rfl⟩

/-- C14: when `open` gives a descriptor and the first read delivers 8192 bytes,
`init_rng` returns with the buffer holding exactly those bytes and the cursor at
0; the first call of `c_uuid4` then makes no read, keeps the buffer and returns
the transform of buffer bytes 0..15. -/
theorem init_fills_buffer (src : Nat → ReadResult) (s : State) (fd : Int) (hfd : fd ≠ -1)
    (hr : (src s.reads).bytes_read = 8192) :
    ∃ s0, init_rng src fd s = .ret s0 ∧
      (∀ i, i < 8192 → s0.random_buffer i = (src s.reads).payload i) ∧
      s0.buffer_pos = 0 ∧ s0.reads = s.reads + 1 ∧ s0.urandom_fd = fd ∧
      ∃ s1, c_uuid4 src s0 = .ret (set_version_variant (memcpy s0.random_buffer 0 16), s1) ∧
        s1.reads = s0.reads ∧ s1.random_buffer = s0.random_buffer ∧ s1.buffer_pos = 16 := by
  refine ⟨⟨fd, (src s.reads).store s.random_buffer, 0, s.reads + 1⟩,
    fill_buffer_full src ⟨fd, s.random_buffer, s.buffer_pos, s.reads⟩ hfd hr,
    fun i hi => store_full _ hr _ i hi, rfl, rfl, rfl, ?_⟩
  exact ⟨_, c_uuid4_fast src ⟨fd, (src s.reads).store s.random_buffer, 0, s.reads + 1⟩
    (show 0 + UUID_SIZE ≤ BUFFER_SIZE by decide), rfl, rfl, rfl⟩

/-- Witness of C14: the load-time state, descriptor 3, reads of 8192 bytes. -/
theorem init_fills_buffer_witness :
    (3 : Int) ≠ -1 ∧ (counting_source 0).bytes_read = 8192 ∧
    ∃ s0, init_rng counting_source 3 initial = .ret s0 ∧
      (∀ i, i < 8192 → s0.random_buffer i = (counting_source 0).payload i) ∧
      s0.buffer_pos = 0 ∧ s0.reads = 0 + 1 ∧ s0.urandom_fd = 3 ∧
      ∃ s1, c_uuid4 counting_source s0
          = .ret (set_version_variant (memcpy s0.random_buffer 0 16), s1) ∧
        s1.reads = s0.reads ∧ s1.random_buffer = s0.random_buffer ∧ s1.buffer_pos = 16 :=
  ⟨by decide, rfl, init_fills_buffer counting_source initial 3 (by decide) rfl⟩

/-! ## What the transform keeps (C15, C11) -/

theorem version_byte_eq_iff (a b : Nat) :
    version_byte a = version_byte b ↔ a &&& 0x0F = b &&& 0x0F := by
  constructor
  · intro h
    rw [← version_byte_low a, ← version_byte_low b, h]
  · intro h
    unfold version_byte
    rw [h]

theorem variant_byte_eq_iff (a b : Nat) :
    variant_byte a = variant_byte b ↔ a &&& 0x3F = b &&& 0x3F := by
  constructor
  · intro h
    rw [← variant_byte_low a, ← variant_byte_low b, h]
  · intro h
    unfold variant_byte
    rw [h]

/-- A list of length 16 is a list of 16 elements. -/
theorem length_sixteen (u : List Nat) (h : u.length = 16) :
    ∃ a0 a1 a2 a3 a4 a5 a6 a7 a8 a9 a10 a11 a12 a13 a14 a15,
      u = [a0, a1, a2, a3, a4, a5, a6, a7, a8, a9, a10, a11, a12, a13, a14, a15] := by
  rcases u with _ | ⟨a0, _ | ⟨a1, _ | ⟨a2, _ | ⟨a3, _ | ⟨a4, _ | ⟨a5, _ | ⟨a6, _ | ⟨a7, _ | ⟨a8, _ | ⟨a9, _ | ⟨a10, _ | ⟨a11, _ | ⟨a12, _ | ⟨a13, _ | ⟨a14, _ | ⟨a15, t⟩⟩⟩⟩⟩⟩⟩⟩⟩⟩⟩⟩⟩⟩⟩⟩
  all_goals simp only [List.length_cons, List.length_nil] at h
  all_goals first
    | omega
    | skip
  have ht : t = [] := List.length_eq_zero.mp (by omega)
  subst ht
  exact ⟨a0, a1, a2, a3, a4, a5, a6, a7, a8, a9, a10, a11, a12, a13, a14, a15, rfl⟩

/-- The transform identifies two 16-byte payloads exactly when they agree on
the bits it keeps. -/
theorem transform_eq_iff (u v : List Nat) (hu : u.length = 16) (hv : v.length = 16) :
    set_version_variant u = set_version_variant v ↔ same_kept_bits u v := by
  obtain ⟨a0, a1, a2, a3, a4, a5, a6, a7, a8, a9, a10, a11, a12, a13, a14, a15, rfl⟩ := length_sixteen u hu
  obtain ⟨b0, b1, b2, b3, b4, b5, b6, b7, b8, b9, b10, b11, b12, b13, b14, b15, rfl⟩ := length_sixteen v hv
  rw [set_version_variant_cons, set_version_variant_cons]
  unfold same_kept_bits
  constructor
  · intro h
    simp only [List.cons.injEq, version_byte_eq_iff, variant_byte_eq_iff, and_true] at h
    obtain ⟨e0, e1, e2, e3, e4, e5, e6, e7, e8, e9, e10, e11, e12, e13, e14, e15⟩ := h
    refine ⟨?_, e6, e8⟩
    intro i hi h6 h8
    interval_cases i <;> first | assumption | contradiction
  · rintro ⟨h, h6, h8⟩
    have e0 := h 0 (by omega) (by omega) (by omega)
    have e1 := h 1 (by omega) (by omega) (by omega)
    have e2 := h 2 (by omega) (by omega) (by omega)
    have e3 := h 3 (by omega) (by omega) (by omega)
    have e4 := h 4 (by omega) (by omega) (by omega)
    have e5 := h 5 (by omega) (by omega) (by omega)
    have e7 := h 7 (by omega) (by omega) (by omega)
    have e9 := h 9 (by omega) (by omega) (by omega)
    have e10 := h 10 (by omega) (by omega) (by omega)
    have e11 := h 11 (by omega) (by omega) (by omega)
    have e12 := h 12 (by omega) (by omega) (by omega)
    have e13 := h 13 (by omega) (by omega) (by omega)
    have e14 := h 14 (by omega) (by omega) (by omega)
    have e15 := h 15 (by omega) (by omega) (by omega)
    simp only [List.cons.injEq, version_byte_eq_iff, variant_byte_eq_iff, and_true]
    exact ⟨e0, e1, e2, e3, e4, e5, h6, e7, h8, e9, e10, e11, e12, e13, e14, e15⟩

/-- The six overwritten bits of the result do not depend on the payload. -/
theorem transform_fixed_bits (u : List Nat) (hu : u.length = 16) :
    (set_version_variant u).getD 6 0 &&& 0xF0 = 0x40 ∧
      (set_version_variant u).getD 8 0 &&& 0xC0 = 0x80 := by
  obtain ⟨a0, a1, a2, a3, a4, a5, a6, a7, a8, a9, a10, a11, a12, a13, a14, a15, rfl⟩ := length_sixteen u hu
  rw [set_version_variant_cons]
  exact ⟨version_byte_high a6, variant_byte_high a8⟩

/-- C15: two 16-byte raw payloads are mapped to the same UUID by the
version/variant transform if and only if they agree on every bit other than the
high nibble of byte 6 and the top two bits of byte 8; those six bits of the
result are the same for every payload. -/
theorem transform_collisions (u v : List Nat) (hu : u.length = 16) (hv : v.length = 16) :
    (set_version_variant u = set_version_variant v ↔ same_kept_bits u v) ∧
      (set_version_variant u).getD 6 0 &&& 0xF0 = 0x40 ∧
      (set_version_variant u).getD 8 0 &&& 0xC0 = 0x80 :=
  ⟨transform_eq_iff u v hu hv, transform_fixed_bits u hu⟩

/-- Witness of C15: two payloads that differ only in overwritten bits. -/
theorem transform_collisions_witness :
    [1, 2, 3, 4, 5, 6, 0x17, 8, 0x49, 10, 11, 12, 13, 14, 15, 16].length = 16 ∧
    [1, 2, 3, 4, 5, 6, 0xA7, 8, 0xC9, 10, 11, 12, 13, 14, 15, 16].length = 16 ∧
    ((set_version_variant [1, 2, 3, 4, 5, 6, 0x17, 8, 0x49, 10, 11, 12, 13, 14, 15, 16]
        = set_version_variant [1, 2, 3, 4, 5, 6, 0xA7, 8, 0xC9, 10, 11, 12, 13, 14, 15, 16] ↔
      same_kept_bits [1, 2, 3, 4, 5, 6, 0x17, 8, 0x49, 10, 11, 12, 13, 14, 15, 16]
        [1, 2, 3, 4, 5, 6, 0xA7, 8, 0xC9, 10, 11, 12, 13, 14, 15, 16]) ∧
      (set_version_variant
        [1, 2, 3, 4, 5, 6, 0x17, 8, 0x49, 10, 11, 12, 13, 14, 15, 16]).getD 6 0 &&& 0xF0 = 0x40 ∧
      (set_version_variant
        [1, 2, 3, 4, 5, 6, 0x17, 8, 0x49, 10, 11, 12, 13, 14, 15, 16]).getD 8 0 &&& 0xC0
          = 0x80) :=
  ⟨rfl, rfl, transform_collisions _ _ rfl rfl⟩

/-- The chunk of a source has 16 bytes. -/
theorem chunk_length (src : Nat → ReadResult) (n : Nat) : (chunk src n).length = 16 := by
  simp only [chunk, memcpy, UUID_SIZE, List.length_map, List.length_range]

/-- After a successful `init_rng`, call number `n` returns the transform of
chunk number `n` of the stream. -/
theorem nth_call_chunk (src : Nat → ReadResult) (fd : Int) (hfd : fd ≠ -1)
    (hsrc : Delivers src) (n : Nat) :
    nth_call src ⟨fd, (src 0).store (fun _ => 0), 0, 1⟩ n
      = .ret (set_version_variant (chunk src n)) := by
  obtain ⟨sn, hrun, hinv⟩ := seq_after_calls src hsrc 0 _ (init_rng_seq_inv src fd hfd hsrc) n
  rw [Nat.zero_add] at hinv
  obtain ⟨s1, hcall, _⟩ := seq_step src hsrc n sn hinv
  rw [nth_call, hrun]
  simp only [Outcome.bind, hcall, chunk]

/-- Byte 0 of chunk `n` of the sample source is `n % 256`. -/
theorem serial_chunk_head (n : Nat) : (chunk serial_source n).getD 0 0 = n % 256 := by
  have h : (chunk serial_source n).getD 0 0 = stream serial_source (16 * n + 0) := rfl
  rw [h]
  have hd : (16 * n + 0) % BUFFER_SIZE % 16 = 0 := by
    simp only [BUFFER_SIZE]
    omega
  have hlt : (16 * n + 0) % BUFFER_SIZE < BUFFER_SIZE := Nat.mod_lt _ (by decide)
  simp only [stream, serial_source, ReadResult.payload, hlt, if_true, hd]
  simp only [BUFFER_SIZE]
  omega

theorem serial_source_delivers : Delivers serial_source := by
  intro k
  simp only [serial_source, ReadResult.bytes_read]

/-- The first 256 chunks of the sample source differ pairwise on kept bits. -/
theorem serial_chunks_distinct (i j : Nat) (hi : i < 256) (hj : j < 256) (hij : i ≠ j) :
    ¬ same_kept_bits (chunk serial_source i) (chunk serial_source j) := by
  intro h
  have h0 := h.1 0 (by omega) (by omega) (by omega)
  rw [serial_chunk_head, serial_chunk_head] at h0
  omega

/-- C11: in a sequential run after a successful `init_rng`, with a source that
always delivers 8192 bytes, if the first `N` 16-byte chunks of the stream differ
pairwise on the 122 bits that the transform keeps, then the first `N` calls of
`c_uuid4` all return and their UUIDs are pairwise distinct. -/
theorem uuids_pairwise_distinct (src : Nat → ReadResult) (fd : Int) (hfd : fd ≠ -1)
    (hsrc : Delivers src) (N : Nat)
    (hdist : ∀ i j, i < N → j < N → i ≠ j → ¬ same_kept_bits (chunk src i) (chunk src j)) :
    ∃ s0, init_rng src fd initial = .ret s0 ∧
      ∀ i j, i < N → j < N → i ≠ j →
        ∃ ui uj, nth_call src s0 i = .ret ui ∧ nth_call src s0 j = .ret uj ∧ ui ≠ uj := by
  refine ⟨_, init_rng_ok src fd hfd (hsrc 0), ?_⟩
  intro i j hi hj hij
  refine ⟨_, _, nth_call_chunk src fd hfd hsrc i, nth_call_chunk src fd hfd hsrc j, ?_⟩
  intro heq
  exact hdist i j hi hj hij
    ((transform_eq_iff _ _ (chunk_length src i) (chunk_length src j)).mp heq)

/-- Witness of C11: descriptor 3, the sample source, and its first 256 chunks. -/
theorem uuids_pairwise_distinct_witness :
    (3 : Int) ≠ -1 ∧ Delivers serial_source ∧
    (∀ i j, i < 256 → j < 256 → i ≠ j →
      ¬ same_kept_bits (chunk serial_source i) (chunk serial_source j)) ∧
    ∃ s0, init_rng serial_source 3 initial = .ret s0 ∧
      ∀ i j, i < 256 → j < 256 → i ≠ j →
        ∃ ui uj, nth_call serial_source s0 i = .ret ui ∧
          nth_call serial_source s0 j = .ret uj ∧ ui ≠ uj :=
  ⟨by decide, serial_source_delivers, serial_chunks_distinct,
    uuids_pairwise_distinct serial_source 3 (by decide) serial_source_delivers 256
      serial_chunks_distinct⟩

/-! ## Sequential safety (C16, C17) -/

/-- With the cursor within the buffer and a source that delivers, a call returns
and leaves the cursor within the buffer, descriptor or not. -/
theorem call_returns (src : Nat → ReadResult) (hsrc : Delivers src) (s : State)
    (hpos : s.buffer_pos ≤ BUFFER_SIZE) :
    ∃ u s1, c_uuid4 src s = .ret (u, s1) ∧ s1.buffer_pos ≤ BUFFER_SIZE := by
  by_cases hfit : s.buffer_pos + UUID_SIZE ≤ BUFFER_SIZE
  · exact ⟨_, _, c_uuid4_fast src s hfit, hfit⟩
  · have h1 : BUFFER_SIZE < s.buffer_pos + UUID_SIZE := by omega
    have h2 : s.buffer_pos + UUID_SIZE < SIZE_MOD := by
      rw [size_mod_eq]
      simp only [UUID_SIZE, BUFFER_SIZE] at hpos ⊢
      omega
    by_cases hfd : s.urandom_fd = -1
    · have hf := fill_buffer_no_fd src
        ⟨s.urandom_fd, s.random_buffer, s.buffer_pos + UUID_SIZE, s.reads⟩ hfd
      exact ⟨_, _, c_uuid4_refill src s _ h1 h2 hf, (show UUID_SIZE ≤ BUFFER_SIZE by decide)⟩
    · have hf := fill_buffer_full src
        ⟨s.urandom_fd, s.random_buffer, s.buffer_pos + UUID_SIZE, s.reads⟩ hfd (hsrc _)
      exact ⟨_, _, c_uuid4_refill src s _ h1 h2 hf, (show UUID_SIZE ≤ BUFFER_SIZE by decide)⟩

/-- A sequential run from a state with the cursor within the buffer never ends
early. -/
theorem after_calls_returns (src : Nat → ReadResult) (hsrc : Delivers src) (s : State)
    (hpos : s.buffer_pos ≤ BUFFER_SIZE) (n : Nat) :
    ∃ sn, after_calls src s n = .ret sn ∧ sn.buffer_pos ≤ BUFFER_SIZE := by
  induction n with
  | zero => exact ⟨s, rfl, hpos⟩
  | succ n ih =>
    obtain ⟨sn, hrun, hle⟩ := ih
    obtain ⟨u, s1, hcall, hle1⟩ := call_returns src hsrc sn hle
    refine ⟨s1, ?_, hle1⟩
    rw [after_calls, hrun]
    simp only [Outcome.bind, hcall]

/-- With a source that delivers, `init_rng` returns with the cursor at 0,
whatever `open` returned. -/
theorem init_rng_returns (src : Nat → ReadResult) (hsrc : Delivers src) (fd : Int) :
    ∃ s0, init_rng src fd initial = .ret s0 ∧ s0.buffer_pos = 0 := by
  by_cases hfd : fd = -1
  · exact ⟨_, fill_buffer_no_fd src ⟨fd, fun _ => 0, BUFFER_SIZE, 0⟩ hfd, rfl⟩
  · exact ⟨_, fill_buffer_full src ⟨fd, fun _ => 0, BUFFER_SIZE, 0⟩ hfd (hsrc _), rfl⟩

/-- C16: in every sequential run from the load-time state (`init_rng`, then any
number of calls of `c_uuid4`) with a source that delivers 8192 bytes per read,
every call returns, and the offset `p` its `memcpy` copies from satisfies
`p + 16 ≤ 8192`: the copy stays inside the buffer, and neither the reservation
nor the copy nor the bit overrides fail. -/
theorem copy_in_bounds (src : Nat → ReadResult) (hsrc : Delivers src) (fd : Int) :
    ∃ s0, init_rng src fd initial = .ret s0 ∧
      ∀ n, ∃ sn p s1 u, after_calls src s0 n = .ret sn ∧ reserve src sn = .ret (p, s1) ∧
        p + 16 ≤ 8192 ∧ c_uuid4 src sn = .ret (u, s1) ∧
        u = set_version_variant (memcpy s1.random_buffer p 16) := by
  obtain ⟨s0, hinit, h0⟩ := init_rng_returns src hsrc fd
  refine ⟨s0, hinit, fun n => ?_⟩
  obtain ⟨sn, hrun, hle⟩ := after_calls_returns src hsrc s0 (by rw [h0]; exact Nat.zero_le _) n
  obtain ⟨u, s1, hcall, _⟩ := call_returns src hsrc sn hle
  obtain ⟨p, hres, hp, hu⟩ := (c_uuid4_ret_iff src sn s1 u).mp hcall
  exact ⟨sn, p, s1, u, hrun, hres, hp, hcall, hu⟩

/-- Witness of C16: the sample source and descriptor 3. -/
theorem copy_in_bounds_witness :
    Delivers counting_source ∧
    ∃ s0, init_rng counting_source 3 initial = .ret s0 ∧
      ∀ n, ∃ sn p s1 u, after_calls counting_source s0 n = .ret sn ∧
        reserve counting_source sn = .ret (p, s1) ∧ p + 16 ≤ 8192 ∧
        c_uuid4 counting_source sn = .ret (u, s1) ∧
        u = set_version_variant (memcpy s1.random_buffer p 16) :=
  ⟨counting_source_delivers, copy_in_bounds counting_source counting_source_delivers 3⟩

/-- Whenever the reservation of `c_uuid4` returns from a cursor that is a
multiple of 16, the cursor is again a multiple of 16. -/
theorem reserve_ret_aligned (src : Nat → ReadResult) (s s1 : State) (p : Nat)
    (h : reserve src s = .ret (p, s1)) (ha : s.buffer_pos % 16 = 0) :
    s1.buffer_pos % 16 = 0 := by
  unfold reserve at h
  simp only [fetch_add] at h
  split at h
  · cases hf : fill_buffer src
        ⟨s.urandom_fd, s.random_buffer, (s.buffer_pos + UUID_SIZE) % SIZE_MOD, s.reads⟩ with
    | ret s2 =>
      rw [hf] at h
      simp only [Outcome.bind] at h
      injection h with h
      injection h with _ h2
      subst h2
      have hp := fill_buffer_ret_pos _ _ _ hf
      simp only [hp, size_mod_eq, UUID_SIZE]
    | exited c e =>
      rw [hf] at h
      cases h
    | fault =>
      rw [hf] at h
      cases h
  · injection h with h
    injection h with _ h2
    subst h2
    simp only [size_mod_eq, UUID_SIZE]
    omega

/-- Between operations the cursor is within the buffer and a multiple of 16. -/
theorem reachable_cursor (src : Nat → ReadResult) (s : State) (h : Reachable src s) :
    s.buffer_pos ≤ BUFFER_SIZE ∧ s.buffer_pos % 16 = 0 := by
  induction h with
  | start => exact ⟨Nat.le_refl _, rfl⟩
  | init s s1 fd _ hstep _ =>
    rw [fill_buffer_ret_pos _ _ _ hstep]
    exact ⟨Nat.zero_le _, rfl⟩
  | refill s s1 _ hstep _ =>
    rw [fill_buffer_ret_pos _ _ _ hstep]
    exact ⟨Nat.zero_le _, rfl⟩
  | call s s1 u _ hstep ih =>
    obtain ⟨p, hres, _, _⟩ := (c_uuid4_ret_iff src s s1 u).mp hstep
    exact ⟨reserve_ret_pos src s s1 p hres, reserve_ret_aligned src s s1 p hres ih.2⟩

/-- C17: in every state the sequential program is in between operations, in
particular after each completed call of `c_uuid4`, the cursor is a multiple of
16; so the next slice either lies inside the buffer or the cursor stands exactly
at 8192: a slice never straddles the end of the buffer, and a refill discards
no unconsumed byte. -/
theorem cursor_aligned (src : Nat → ReadResult) (s : State) (h : Reachable src s) :
    s.buffer_pos % 16 = 0 ∧
      (s.buffer_pos + 16 ≤ 8192 ∨ s.buffer_pos = 8192) ∧
      ((s.buffer_pos + UUID_SIZE) % SIZE_MOD > BUFFER_SIZE → 8192 - s.buffer_pos = 0) := by
  obtain ⟨hle, ha⟩ := reachable_cursor src s h
  simp only [BUFFER_SIZE] at hle
  refine ⟨ha, by omega, fun hex => ?_⟩
  simp only [size_mod_eq, UUID_SIZE, BUFFER_SIZE] at hex
  omega

/-- The states of a run of successive calls are states between operations. -/
theorem reachable_after_calls (src : Nat → ReadResult) (s : State) (hs : Reachable src s)
    (n : Nat) (sn : State) (h : after_calls src s n = .ret sn) : Reachable src sn := by
  induction n generalizing sn with
  | zero =>
    injection h with h
    subst h
    exact hs
  | succ n ih =>
    rw [after_calls] at h
    cases hn : after_calls src s n with
    | ret s1 =>
      rw [hn] at h
      simp only [Outcome.bind] at h
      cases hc : c_uuid4 src s1 with
      | ret r =>
        rw [hc] at h
        simp only at h
        injection h with h
        subst h
        exact Reachable.call s1 r.2 r.1 (ih s1 hn) hc
      | exited c e =>
        rw [hc] at h
        cases h
      | fault =>
        rw [hc] at h
        cases h
    | exited c e =>
      rw [hn] at h
      cases h
    | fault =>
      rw [hn] at h
      cases h

/-- Witness of C17: the state after a successful `init_rng` and 512 calls, where
the next call refills. -/
theorem cursor_aligned_witness :
    Reachable counting_source
        ⟨3, (counting_source 0).store (fun _ => 0), 0 + UUID_SIZE * 512, 1⟩ ∧
      ((0 + UUID_SIZE * 512) % 16 = 0 ∧
      (0 + UUID_SIZE * 512 + 16 ≤ 8192 ∨ 0 + UUID_SIZE * 512 = 8192) ∧
      8192 - (0 + UUID_SIZE * 512) = 0) := by
  have hinit : init_rng counting_source 3 initial
      = .ret ⟨3, (counting_source 0).store (fun _ => 0), 0, 1⟩ :=
    init_rng_ok counting_source 3 (by decide) (counting_source_delivers 0)
  have hfit : 0 + UUID_SIZE * 512 ≤ BUFFER_SIZE := by decide
  have hrun := after_calls_fast counting_source
    ⟨3, (counting_source 0).store (fun _ => 0), 0, 1⟩ 512 hfit
  simp only at hrun
  have hreach : Reachable counting_source
      ⟨3, (counting_source 0).store (fun _ => 0), 0 + UUID_SIZE * 512, 1⟩ :=
    reachable_after_calls counting_source _ (Reachable.init _ _ 3 Reachable.start hinit) 512 _
      hrun
  have h := cursor_aligned _ _ hreach
  exact ⟨hreach, h.1, h.2.1, h.2.2 (by rw [size_mod_eq]; decide)⟩

/-! ## Interleaved callers and the bounds of the copy (C18) -/

/-- An idle thread that finds the cursor at the end of the buffer refills:
after its two steps the buffer holds the next read and the cursor is 0. -/
theorem run_enter_refill (src : Nat → ReadResult) (t : Nat) (fd : Int) (buf : Nat → Nat)
    (k : Nat) (pcs : Nat → Pc) (log : List Allocation) (hidle : pcs t = .idle) (hfd : fd ≠ -1)
    (hr : (src k).bytes_read = (BUFFER_SIZE : Int)) :
    run src ⟨⟨fd, buf, BUFFER_SIZE, k⟩, pcs, log⟩ [t, t]
      = .ret ⟨⟨fd, (src k).store buf, 0, k + 1⟩,
          set_pc (set_pc pcs t .refill) t .second_add, log⟩ := by
  have h1 : (BUFFER_SIZE + UUID_SIZE) % SIZE_MOD > BUFFER_SIZE := by
    rw [size_mod_eq]
    decide
  have hself : set_pc pcs t .refill t = .refill := by
    simp only [set_pc, if_true]
  have hf := fill_buffer_full src ⟨fd, buf, (BUFFER_SIZE + UUID_SIZE) % SIZE_MOD, k⟩ hfd hr
  simp only [run, step, hidle, fetch_add, h1, if_true, Outcome.bind, hself, hf]

/-- The second `atomic_fetch_add` takes whatever the cursor holds. -/
theorem step_second_add (src : Nat → ReadResult) (t : Nat) (σ : System)
    (h : σ.pcs t = .second_add) :
    step src σ t
      = .ret ⟨⟨σ.shared.urandom_fd, σ.shared.random_buffer,
          (σ.shared.buffer_pos + UUID_SIZE) % SIZE_MOD, σ.shared.reads⟩,
          set_pc σ.pcs t (.copy σ.shared.buffer_pos), σ.log⟩ := by
  simp only [step, h, fetch_add]

/-- A run that reaches `σ1` on a prefix continues from `σ1`. -/
theorem run_then (src : Nat → ReadResult) (l1 l2 : List Nat) (σ σ1 : System)
    (h : run src σ l1 = .ret σ1) : run src σ (l1 ++ l2) = run src σ1 l2 := by
  rw [run_append, h]
  rfl

/-- A schedule of one step. -/
theorem run_single (src : Nat → ReadResult) (t : Nat) (σ : System) (o : Outcome System)
    (h : step src σ t = o) : run src σ [t] = o := by
  subst h
  simp only [run]
  cases step src σ t <;> rfl

/-- C18, the code at a failing schedule: after a successful `init_rng`, run
`stale_offset_schedule`. No step exits or faults, and thread 0 ends up before
its `memcpy` with `current_pos = 8192`, obtained by the second
`atomic_fetch_add` after its own refill: `8192 + 16 > 8192`, and its next step
copies 16 bytes from past the end of the buffer. -/
theorem stale_offset_after_refill :
    ∃ s0 σ, init_rng counting_source 3 initial = .ret s0 ∧
      run counting_source (System.start s0) stale_offset_schedule = .ret σ ∧
      σ.pcs 0 = .copy 8192 ∧ 8192 + 16 > 8192 ∧
      step counting_source σ 0 = .fault ∧
      run counting_source (System.start s0) (stale_offset_schedule ++ [0]) = .fault := by
  obtain ⟨log1, h1⟩ := run_fast_calls counting_source 0 512
    (System.start ⟨3, (counting_source 0).store (fun _ => 0), 0, 1⟩) rfl (by decide)
  have h2 := run_enter_refill counting_source 0 3 ((counting_source 0).store (fun _ => 0)) 1
    (fun _ => .idle) log1 rfl (by decide) (counting_source_delivers 1)
  obtain ⟨log2, h3⟩ := run_fast_calls counting_source 1 512
    ⟨⟨3, (counting_source 1).store ((counting_source 0).store (fun _ => 0)), 0, 1 + 1⟩,
      set_pc (set_pc (fun _ => .idle) 0 .refill) 0 .second_add, log1⟩ rfl
    (show 0 + UUID_SIZE * 512 ≤ BUFFER_SIZE by decide)
  have h4 := run_single counting_source 0 _ _ (step_second_add counting_source 0
    ⟨⟨3, (counting_source 1).store ((counting_source 0).store (fun _ => 0)),
      0 + UUID_SIZE * 512, 1 + 1⟩,
      set_pc (set_pc (fun _ => .idle) 0 .refill) 0 .second_add, log2⟩ rfl)
  have hA := run_then counting_source _ ([0, 0] ++ (List.replicate (2 * 512) 1 ++ [0])) _ _ h1
  have hB := run_then counting_source _ (List.replicate (2 * 512) 1 ++ [0]) _ _ h2
  have hC := run_then counting_source _ [0] _ _ h3
  have hrun := hA.trans (hB.trans (hC.trans h4))
  have hfault : step counting_source
      ⟨⟨3, (counting_source 1).store ((counting_source 0).store (fun _ => 0)),
        (0 + UUID_SIZE * 512 + UUID_SIZE) % SIZE_MOD, 1 + 1⟩,
        set_pc (set_pc (set_pc (fun _ => .idle) 0 .refill) 0 .second_add) 0
          (.copy (0 + UUID_SIZE * 512)), log2⟩ 0 = .fault := rfl
  exact ⟨_, _, init_rng_ok counting_source 3 (by decide) (counting_source_delivers 0), hrun,
    rfl, by decide, hfault,
    (run_then counting_source _ [0] _ _ hrun).trans (run_single counting_source 0 _ _ hfault)⟩

/-! ## The cursor inside a call (C9) -/

/-- C9, as stated, fails: after a successful `init_rng` and 512 calls, the first
`atomic_fetch_add` of the 513th call (line 55 adds 16 before line 58 tests)
leaves the cursor at 8208, above 8192, until `fill_buffer` resets it. -/
theorem cursor_exceeds_capacity :
    ∃ s0 σ, init_rng counting_source 3 initial = .ret s0 ∧
      run counting_source (System.start s0) (List.replicate (2 * 512) 0 ++ [0]) = .ret σ ∧
      σ.pcs 0 = .refill ∧ σ.shared.buffer_pos = 8208 ∧
      ¬ (0 ≤ σ.shared.buffer_pos ∧ σ.shared.buffer_pos ≤ 8192) := by
  obtain ⟨log1, h1⟩ := run_fast_calls counting_source 0 512
    (System.start ⟨3, (counting_source 0).store (fun _ => 0), 0, 1⟩) rfl (by decide)
  have hstep : step counting_source
      ⟨⟨3, (counting_source 0).store (fun _ => 0), 0 + UUID_SIZE * 512, 1⟩, fun _ => .idle,
        log1⟩ 0
      = .ret ⟨⟨3, (counting_source 0).store (fun _ => 0),
          (0 + UUID_SIZE * 512 + UUID_SIZE) % SIZE_MOD, 1⟩,
          set_pc (fun _ => .idle) 0 .refill, log1⟩ := rfl
  have hrun := (run_then counting_source _ [0] _ _ h1).trans
    (run_single counting_source 0 _ _ hstep)
  have hpos : (0 + UUID_SIZE * 512 + UUID_SIZE) % SIZE_MOD = 8208 := by
    rw [size_mod_eq]
    rfl
  refine ⟨_, _, init_rng_ok counting_source 3 (by decide) (counting_source_delivers 0), hrun,
    rfl, hpos, ?_⟩
  intro h
  have h2 : (0 + UUID_SIZE * 512 + UUID_SIZE) % SIZE_MOD ≤ 8192 := h.2
  rw [hpos] at h2
  omega

end Picoid
